import Mathlib

set_option linter.unusedVariables false

/-! Verification of the Emacs profiler core (`src/profiler.c`): the bounded
backtrace-frequency store, the approximate-median eviction policy, the
signal-safe recording protocol, and the CPU/memory sampler lifecycle,
shallowly embedded in Lean. -/

/-- A callable identity appearing in a call-stack snapshot: the empty marker
(`Qnil`), the garbage-collection sentinel (`Qautomatic_gc`), or an ordinary
function identified by a number. -/
inductive Frame where
  | nil : Frame
  | gc : Frame
  | fn : Nat → Frame
deriving DecidableEq, Repr

/-- One slot of the hash table's `key_and_value` array: a key buffer and, when
the slot is occupied, its accumulated weight.  `value = none` means the slot is
on the free list and `key` is its pre-allocated snapshot buffer. -/
structure Slot where
  key : List Frame
  value : Option Nat
deriving DecidableEq, Repr

instance : Inhabited Slot := ⟨⟨[], none⟩⟩

/-- Modelled from the spec: the host's keyed-associative container
(`struct Lisp_Hash_Table`, i.e. `log_t`), reduced to what the profiler uses:
the key/value slot array and the free list threaded through free slots.
`next_free` is the head of `freeList`; `next_free = nil` is `freeList = []`. -/
structure LogStore where
  slots : List Slot
  freeList : List Nat
deriving DecidableEq, Repr

/-- The slot at index `i` (`HASH_KEY`/`HASH_VALUE` pair). -/
def slotAt (log : LogStore) (i : Nat) : Slot :=
  log.slots.getD i default

/-- `XINT (HASH_VALUE (log, i))`: the weight stored at slot `i`. -/
def weightOf (log : LogStore) (i : Nat) : Nat :=
  (slotAt log i).value.getD 0

/-- `HASH_KEY (log, i)`: the key buffer stored at slot `i`. -/
def keyOf (log : LogStore) (i : Nat) : List Frame :=
  (slotAt log i).key

/-- `make_log`: a hash table of `heap_size` slots whose keys are pre-filled
with `Qnil` vectors of length `max_stack_depth`, all slots free
(free list `0, 1, ..., heap_size - 1`). -/
def make_log (heap_size max_stack_depth : Nat) : LogStore :=
  { slots := List.replicate heap_size ⟨List.replicate max_stack_depth Frame.nil, none⟩,
    freeList := List.range heap_size }

/-- The median-of-three expression returned by `approximate_median`
in the `size ≥ 3` case, exactly as written in the source. -/
def med3 (i1 i2 i3 : Nat) : Nat :=
  if i1 < i2
  then (if i2 < i3 then i2 else if i1 < i3 then i3 else i1)
  else (if i1 < i3 then i1 else if i2 < i3 then i3 else i2)

/-- Fuel-indexed body of `approximate_median`: structural recursion on `fuel`,
which dominates `size` at every call (the C recursion terminates because
`size` strictly decreases; the fuel just makes that measure explicit and keeps
the function computable by the kernel).  `approximate_median_eq` below
recovers the exact recurrence of the source. -/
def approximateMedianFuel (log : LogStore) : Nat → Nat → Nat → Nat
  | 0, start, _ => weightOf log start
  | fuel + 1, start, size =>
    if size < 2 then weightOf log start
    else if size < 3 then (weightOf log start + weightOf log (start + 1)) / 2
    else
      med3 (approximateMedianFuel log fuel start (size / 3))
           (approximateMedianFuel log fuel (start + size / 3) (size / 3))
           (approximateMedianFuel log fuel (start + size / 3 + size / 3)
              (size - 2 * (size / 3)))

/-- `approximate_median (log, start, size)`: the recursive ternary
approximate-median of the weights of slots `start .. start + size - 1`. -/
def approximate_median (log : LogStore) (start size : Nat) : Nat :=
  approximateMedianFuel log size start size

/-- One iteration of the eviction loop: if the weight at slot `i` is at most
the median, remove the entry (`Fremhash` puts `i` back at the head of the free
list) and reset its key buffer to an all-`nil` vector. -/
def evictStep (median : Nat) (log : LogStore) (i : Nat) : LogStore :=
  if weightOf log i ≤ median then
    { slots := log.slots.set i ⟨List.replicate (keyOf log i).length Frame.nil, none⟩,
      freeList := i :: log.freeList }
  else log

/-- `evict_lower_half`: compute the approximate median of all slots once, then
scan slots `0 .. size - 1` and evict every entry with weight `≤` the median. -/
def evict_lower_half (log : LogStore) : LogStore :=
  (List.range log.slots.length).foldl
    (evictStep (approximate_median log 0 log.slots.length)) log

/-- Modelled from the spec: `hash_lookup` of the host container — find the
first occupied slot whose key equals `key` (`lookup(snapshot) -> slot_index |
not_found`, no allocation).  The helper carries the index offset. -/
def lookupAux (key : List Frame) : List Slot → Nat → Option Nat
  | [], _ => none
  | s :: rest, i =>
    if s.value.isSome ∧ s.key = key then some i else lookupAux key rest (i + 1)

/-- `hash_lookup (log, key)`: index of the occupied slot holding `key`. -/
def hash_lookup (log : LogStore) (key : List Frame) : Option Nat :=
  lookupAux key log.slots 0

/-- Modelled from the spec: `hash_put` of the host container — insert at the
head of the free list; when the free list is exhausted the container grows
(the allocating branch the recording protocol must never reach). -/
def hash_put (log : LogStore) (key : List Frame) (v : Nat) : Nat × LogStore :=
  match log.freeList with
  | i :: rest => (i, { slots := log.slots.set i ⟨key, some v⟩, freeList := rest })
  | [] => (log.slots.length, { slots := log.slots ++ [⟨key, some v⟩], freeList := [] })

/-- `set_hash_value_slot`: replace the weight at slot `i`, keeping its key. -/
def setValueSlot (log : LogStore) (i : Nat) (v : Option Nat) : LogStore :=
  { log with slots := log.slots.set i ⟨keyOf log i, v⟩ }

/-- `set_hash_key_slot` as used by the recording protocol: overwrite the key
buffer at slot `i`, keeping its value. -/
def setKeySlot (log : LogStore) (i : Nat) (k : List Frame) : LogStore :=
  { log with slots := log.slots.set i ⟨k, (slotAt log i).value⟩ }

/-- The backtrace snapshot written into a key buffer of length `asize`: the
first `asize` frames of the backtrace, with unused trailing depth filled with
the empty marker. -/
def captureBacktrace (backlist : List Frame) (asize : Nat) : List Frame :=
  backlist.take asize ++ List.replicate (asize - backlist.length) Frame.nil

/-- Step 1 of `record_backtrace`: if `next_free` is not an integer (the free
list is empty, i.e. the table is full) evict the lower half first. -/
def evictIfFull (log : LogStore) : LogStore :=
  if log.freeList.isEmpty then evict_lower_half log else log

/-- `record_backtrace (log, count)`: evict if full; copy the current backtrace
into the free slot at `next_free`; then gethash+puthash without allocation —
accumulate `count` into an existing entry, or insert the snapshot at the slot
whose buffer was just filled. -/
def record_backtrace (log0 : LogStore) (backtrace_list : List Frame) (count : Nat) : LogStore :=
  let log := evictIfFull log0
  let index := log.freeList.headD 0
  let asize := (keyOf log index).length
  let backtrace := captureBacktrace backtrace_list asize
  let log1 := setKeySlot log index backtrace
  match hash_lookup log1 backtrace with
  | some j => setValueSlot log1 j (some (count + weightOf log1 j))
  | none => (hash_put log1 backtrace count).2

/-- Number of occupied entries in the store. -/
def occupiedCount (log : LogStore) : Nat :=
  log.slots.countP (fun s => s.value.isSome)

/-- Total accumulated weight over all occupied entries. -/
def totalWeight (log : LogStore) : Nat :=
  (log.slots.map (fun s => s.value.getD 0)).sum

/-- The (snapshot, weight) pairs of the occupied entries, in slot order. -/
def entriesOf (log : LogStore) : List (List Frame × Nat) :=
  log.slots.filterMap (fun s => s.value.map (fun v => (s.key, v)))

/-- The accumulated weight stored for snapshot `k`, if present. -/
def getWeight (log : LogStore) (k : List Frame) : Option Nat :=
  (hash_lookup log k).map (weightOf log)

/-- Structural invariant of a profiler store: the free list has no duplicates,
its members are in-range free slots, and every free slot is on it. -/
def StoreWF (log : LogStore) : Prop :=
  log.freeList.Nodup ∧
  (∀ i ∈ log.freeList, i < log.slots.length ∧ (slotAt log i).value = none) ∧
  (∀ i, i < log.slots.length → (slotAt log i).value = none → i ∈ log.freeList)

/-- The error signalled by `error ("... profiler is already running")`. -/
inductive ProfErr where
  | alreadyRunning : ProfErr
deriving DecidableEq, Repr

/-- The CPU sampler's global state: `profiler_cpu_running`, `cpu_log`
(`none` is `Qnil`), `cpu_gc_count` and `current_sample_interval`. -/
structure CpuState where
  profiler_cpu_running : Bool
  cpu_log : Option LogStore
  cpu_gc_count : Nat
  current_sample_interval : Nat
deriving DecidableEq, Repr

/-- `sigprof_handler_1`: on a timer tick, if the innermost frame is the GC
sentinel add the sample interval to the GC accumulator, otherwise record the
backtrace in the cpu log with the sample interval as weight. -/
def sigprof_handler_1 (backtrace_list : List Frame) (st : CpuState) : CpuState :=
  match st.cpu_log with
  | none => st
  | some log =>
    match backtrace_list with
    | Frame.gc :: _ =>
      { st with cpu_gc_count := st.cpu_gc_count + st.current_sample_interval }
    | _ =>
      let newLog := record_backtrace log backtrace_list st.current_sample_interval
      { st with cpu_log := some newLog }

/-- Modelled from the spec: `Fputhash` of the host container — the ordinary
puthash used only on the outgoing log: replace the value if the key is
present, otherwise insert (allocating when the table is full). -/
def Fputhash (key : List Frame) (v : Nat) (log : LogStore) : LogStore :=
  match hash_lookup log key with
  | some j => setValueSlot log j (some v)
  | none => (hash_put log key v).2

/-- `Fprofiler_cpu_log`: hand the current cpu log to the caller after folding
the GC accumulator in as a synthetic entry keyed by a 1-element GC-sentinel
vector; reset the accumulator; install a fresh log iff still running. -/
def Fprofiler_cpu_log (heap_size max_stack_depth : Nat) (st : CpuState) :
    Option LogStore × CpuState :=
  (st.cpu_log.map (Fputhash [Frame.gc] st.cpu_gc_count),
   { st with
       cpu_log := if st.profiler_cpu_running
                  then some (make_log heap_size max_stack_depth)
                  else none,
       cpu_gc_count := 0 })

/-- `Fprofiler_cpu_start`: error if already running; otherwise lazily create
the log (resetting the GC accumulator), set the sample interval, arm the
timer, and mark the sampler running. -/
def Fprofiler_cpu_start (heap_size max_stack_depth sample_interval : Nat)
    (st : CpuState) : CpuState × Option ProfErr :=
  if st.profiler_cpu_running then (st, some ProfErr.alreadyRunning)
  else
    let st1 := match st.cpu_log with
      | none => { st with cpu_gc_count := 0,
                          cpu_log := some (make_log heap_size max_stack_depth) }
      | some _ => st
    ({ st1 with current_sample_interval := sample_interval,
                profiler_cpu_running := true }, none)

/-- `Fprofiler_cpu_stop`: disarm the timer and mark stopped; the log is left
untouched.  Returns whether the profiler was running. -/
def Fprofiler_cpu_stop (st : CpuState) : CpuState × Bool :=
  if st.profiler_cpu_running
  then ({ st with profiler_cpu_running := false }, true)
  else (st, false)

/-- The memory sampler's global state: `profiler_memory_running` and
`memory_log`. -/
structure MemState where
  profiler_memory_running : Bool
  memory_log : Option LogStore
deriving DecidableEq, Repr

/-- `Fprofiler_memory_start`: error if already running; otherwise lazily
create the log and mark the sampler running. -/
def Fprofiler_memory_start (heap_size max_stack_depth : Nat) (st : MemState) :
    MemState × Option ProfErr :=
  if st.profiler_memory_running then (st, some ProfErr.alreadyRunning)
  else
    let st1 := match st.memory_log with
      | none => { st with memory_log := some (make_log heap_size max_stack_depth) }
      | some _ => st
    ({ st1 with profiler_memory_running := true }, none)

/-- The CPU sampler state right after a successful `Fprofiler_cpu_start` from
the pristine state (`stopped`, no log): running, fresh log, zero GC count. -/
def cpuStartState (heap_size max_stack_depth sample_interval : Nat) : CpuState :=
  { profiler_cpu_running := true,
    cpu_log := some (make_log heap_size max_stack_depth),
    cpu_gc_count := 0,
    current_sample_interval := sample_interval }

/-- Whether a timer tick lands inside garbage collection: the innermost
active frame is the GC sentinel. -/
def isGCTick (backtrace_list : List Frame) : Bool :=
  match backtrace_list with
  | Frame.gc :: _ => true
  | _ => false

/-- Run a sequence of timer ticks, each carrying the backtrace it samples. -/
def runTicks (st : CpuState) (ticks : List (List Frame)) : CpuState :=
  ticks.foldl (fun s bt => sigprof_handler_1 bt s) st

/-- Run a sequence of `record_backtrace` calls against a store. -/
def runRecords (log : LogStore) (calls : List (List Frame × Nat)) : LogStore :=
  calls.foldl (fun l c => record_backtrace l c.1 c.2) log

/-- Decides that no tick of the run finds the store full (so no eviction pass
ever triggers) and the store is present throughout. -/
def noEvictTicks (st : CpuState) : List (List Frame) → Bool
  | [] => true
  | bt :: rest =>
    (if isGCTick bt then true
     else match st.cpu_log with
          | some log => !log.freeList.isEmpty
          | none => false)
    && noEvictTicks (sigprof_handler_1 bt st) rest

instance (log : LogStore) : Decidable (StoreWF log) := by
  unfold StoreWF
  infer_instance

/-- No occupied entry of the store is keyed by the 1-element GC-sentinel
vector (the synthetic key that `Fprofiler_cpu_log` folds in at read time):
an invariant of every store the recording protocol builds. -/
def NoGcKey (log : LogStore) : Prop :=
  ∀ i, i < log.slots.length → (slotAt log i).value.isSome = true →
    (slotAt log i).key ≠ [Frame.gc]

/-- The slot-matching predicate that `hash_lookup` tests at index `k`:
the slot is occupied and holds exactly `key`. -/
def matchAt (key : List Frame) (slots : List Slot) (k : Nat) : Prop :=
  (slots.getD k default).value.isSome = true ∧ (slots.getD k default).key = key

instance (key : List Frame) (slots : List Slot) (k : Nat) :
    Decidable (matchAt key slots k) := by
  unfold matchAt; infer_instance

/-! ### Generic list lemmas -/

theorem getD_set_self {α : Type _} (l : List α) (i : Nat) (a d : α)
    (h : i < l.length) : (l.set i a).getD i d = a := by
  induction l generalizing i with
  | nil => simp at h
  | cons x xs ih =>
    cases i with
    | zero => rfl
    | succ n => exact ih n (by simpa using h)

theorem getD_set_ne {α : Type _} (l : List α) (i j : Nat) (a d : α)
    (h : i ≠ j) : (l.set i a).getD j d = l.getD j d := by
  induction l generalizing i j with
  | nil => rfl
  | cons x xs ih =>
    cases i with
    | zero =>
      cases j with
      | zero => exact absurd rfl h
      | succ m => rfl
    | succ n =>
      cases j with
      | zero => rfl
      | succ m => exact ih n m (fun e => h (by rw [e]))

theorem sum_map_set {α : Type _} (f : α → Nat) (l : List α) (i : Nat) (a d : α)
    (h : i < l.length) :
    ((l.set i a).map f).sum + f (l.getD i d) = (l.map f).sum + f a := by
  induction l generalizing i with
  | nil => simp at h
  | cons x xs ih =>
    cases i with
    | zero => simp [List.sum_cons]; omega
    | succ n =>
      have hrec := ih n (by simpa using h)
      have hset : (x :: xs).set (n + 1) a = x :: xs.set n a := rfl
      have hgd : (x :: xs).getD (n + 1) d = xs.getD n d := rfl
      rw [hset, hgd, List.map_cons, List.map_cons, List.sum_cons, List.sum_cons]
      omega

theorem countP_lt_length_of_false {α : Type _} (p : α → Bool) (l : List α)
    (i : Nat) (d : α) (h : i < l.length) (hp : p (l.getD i d) = false) :
    l.countP p < l.length := by
  induction l generalizing i with
  | nil => simp at h
  | cons x xs ih =>
    cases i with
    | zero =>
      have hx : p x = false := hp
      have := List.countP_le_length (p := p) (l := xs)
      simp [List.countP_cons, hx]
      omega
    | succ n =>
      have := ih n (by simpa using h) hp
      simp only [List.countP_cons, List.length_cons]
      split <;> omega

theorem getD_replicate {α : Type _} (n i : Nat) (a d : α) :
    (List.replicate n a).getD i d = if i < n then a else d := by
  induction n generalizing i with
  | zero => simp
  | succ m ih =>
    cases i with
    | zero => simp [List.replicate]
    | succ k =>
      have : (List.replicate (m + 1) a).getD (k + 1) d = (List.replicate m a).getD k d := rfl
      rw [this, ih]
      by_cases hk : k < m <;> simp [hk]

/-! ### Lookup characterization -/

theorem lookupAux_none_iff (key : List Frame) :
    ∀ (slots : List Slot) (i : Nat),
      lookupAux key slots i = none ↔ ∀ k, k < slots.length → ¬ matchAt key slots k := by
  intro slots
  induction slots with
  | nil => intro i; simp [lookupAux]
  | cons s rest ih =>
    intro i
    by_cases hc : (s.value.isSome = true ∧ s.key = key)
    · rw [lookupAux, if_pos hc]
      constructor
      · intro h; simp at h
      · intro h; exact absurd hc (h 0 (Nat.succ_pos _))
    · rw [lookupAux, if_neg hc, ih (i + 1)]
      constructor
      · intro h k hk
        cases k with
        | zero => exact hc
        | succ m => exact h m (by simpa using hk)
      · intro h k hk
        exact h (k + 1) (by simpa using hk)

theorem lookupAux_some (key : List Frame) :
    ∀ (slots : List Slot) (i r : Nat),
      lookupAux key slots i = some r →
      ∃ j, r = i + j ∧ j < slots.length ∧ matchAt key slots j ∧
        ∀ k, k < j → ¬ matchAt key slots k := by
  intro slots
  induction slots with
  | nil => intro i r h; simp [lookupAux] at h
  | cons s rest ih =>
    intro i r h
    by_cases hc : (s.value.isSome = true ∧ s.key = key)
    · rw [lookupAux, if_pos hc] at h
      have hr : i = r := Option.some.inj h
      refine ⟨0, by omega, Nat.succ_pos _, hc, fun k hk => absurd hk (by omega)⟩
    · rw [lookupAux, if_neg hc] at h
      obtain ⟨j, hj1, hj2, hj3, hj4⟩ := ih (i + 1) r h
      refine ⟨j + 1, by omega, by simpa using hj2, hj3, ?_⟩
      intro k hk
      cases k with
      | zero => exact hc
      | succ m => exact hj4 m (by omega)

theorem lookupAux_intro (key : List Frame) :
    ∀ (slots : List Slot) (i j : Nat), j < slots.length → matchAt key slots j →
      (∀ k, k < j → ¬ matchAt key slots k) → lookupAux key slots i = some (i + j) := by
  intro slots
  induction slots with
  | nil => intro i j hj; simp at hj
  | cons s rest ih =>
    intro i j hj hm hb
    cases j with
    | zero =>
      have hc : (s.value.isSome = true ∧ s.key = key) := hm
      rw [lookupAux, if_pos hc]
      simp
    | succ m =>
      have hc : ¬ (s.value.isSome = true ∧ s.key = key) := hb 0 (Nat.succ_pos _)
      rw [lookupAux, if_neg hc]
      have := ih (i + 1) m (by simpa using hj) hm (fun k hk => hb (k + 1) (by omega))
      rw [this]
      congr 1
      omega

theorem hash_lookup_none_iff (log : LogStore) (key : List Frame) :
    hash_lookup log key = none ↔
      ∀ k, k < log.slots.length → ¬ matchAt key log.slots k :=
  lookupAux_none_iff key log.slots 0

theorem hash_lookup_some (log : LogStore) (key : List Frame) (j : Nat)
    (h : hash_lookup log key = some j) :
    j < log.slots.length ∧ matchAt key log.slots j ∧
      ∀ k, k < j → ¬ matchAt key log.slots k := by
  obtain ⟨j', hj1, hj2, hj3, hj4⟩ := lookupAux_some key log.slots 0 j h
  have : j = j' := by omega
  subst this
  exact ⟨hj2, hj3, hj4⟩

theorem hash_lookup_intro (log : LogStore) (key : List Frame) (j : Nat)
    (h1 : j < log.slots.length) (h2 : matchAt key log.slots j)
    (h3 : ∀ k, k < j → ¬ matchAt key log.slots k) :
    hash_lookup log key = some j := by
  have := lookupAux_intro key log.slots 0 j h1 h2 h3
  simpa using this

theorem lookupAux_ext (key : List Frame) :
    ∀ (s1 s2 : List Slot) (i : Nat), s1.length = s2.length →
      (∀ k, k < s1.length → (matchAt key s1 k ↔ matchAt key s2 k)) →
      lookupAux key s1 i = lookupAux key s2 i := by
  intro s1
  induction s1 with
  | nil =>
    intro s2 i hl _
    cases s2 with
    | nil => rfl
    | cons t ts => simp at hl
  | cons s rest ih =>
    intro s2 i hl hk
    cases s2 with
    | nil => simp at hl
    | cons t ts =>
      have h0 : matchAt key (s :: rest) 0 ↔ matchAt key (t :: ts) 0 :=
        hk 0 (Nat.succ_pos _)
      by_cases hc : (s.value.isSome = true ∧ s.key = key)
      · have hc' : (t.value.isSome = true ∧ t.key = key) := h0.mp hc
        rw [lookupAux, if_pos hc, lookupAux, if_pos hc']
      · have hc' : ¬ (t.value.isSome = true ∧ t.key = key) := fun h => hc (h0.mpr h)
        rw [lookupAux, if_neg hc, lookupAux, if_neg hc']
        exact ih ts (i + 1) (by simpa using hl) (fun k hkk => hk (k + 1) (by simpa using hkk))

/-! ### Approximate-median: defining recurrence and bounds -/

theorem approximateMedianFuel_irrel (log : LogStore) :
    ∀ (f1 f2 start size : Nat), size ≤ f1 → size ≤ f2 →
      approximateMedianFuel log f1 start size = approximateMedianFuel log f2 start size := by
  intro f1
  induction f1 with
  | zero =>
    intro f2 start size h1 h2
    have hs : size = 0 := by omega
    subst hs
    cases f2 with
    | zero => rfl
    | succ g => simp [approximateMedianFuel]
  | succ g1 ih =>
    intro f2 start size h1 h2
    cases f2 with
    | zero =>
      have hs : size = 0 := by omega
      subst hs
      simp [approximateMedianFuel]
    | succ g2 =>
      by_cases hlt2 : size < 2
      · simp [approximateMedianFuel, hlt2]
      · by_cases hlt3 : size < 3
        · simp [approximateMedianFuel, hlt2, hlt3]
        · rw [approximateMedianFuel, approximateMedianFuel,
              if_neg hlt2, if_neg hlt2, if_neg hlt3, if_neg hlt3]
          rw [ih g2 start (size / 3) (by omega) (by omega),
              ih g2 (start + size / 3) (size / 3) (by omega) (by omega),
              ih g2 (start + size / 3 + size / 3) (size - 2 * (size / 3)) (by omega) (by omega)]

theorem approximate_median_eq (log : LogStore) (start size : Nat) :
    approximate_median log start size =
      if size < 2 then weightOf log start
      else if size < 3 then (weightOf log start + weightOf log (start + 1)) / 2
      else
        med3 (approximate_median log start (size / 3))
             (approximate_median log (start + size / 3) (size / 3))
             (approximate_median log (start + size / 3 + size / 3)
                (size - 2 * (size / 3))) := by
  unfold approximate_median
  cases size with
  | zero => simp [approximateMedianFuel]
  | succ n =>
    by_cases hlt2 : n + 1 < 2
    · simp [approximateMedianFuel, hlt2]
    · by_cases hlt3 : n + 1 < 3
      · simp [approximateMedianFuel, hlt2, hlt3]
      · rw [approximateMedianFuel, if_neg hlt2, if_neg hlt2, if_neg hlt3, if_neg hlt3]
        rw [approximateMedianFuel_irrel log n ((n + 1) / 3) start ((n + 1) / 3)
              (by omega) (by omega),
            approximateMedianFuel_irrel log n ((n + 1) / 3) (start + (n + 1) / 3)
              ((n + 1) / 3) (by omega) (by omega),
            approximateMedianFuel_irrel log n ((n + 1) - 2 * ((n + 1) / 3))
              (start + (n + 1) / 3 + (n + 1) / 3) ((n + 1) - 2 * ((n + 1) / 3))
              (by omega) (by omega)]

theorem med3_cases (a b c : Nat) : med3 a b c = a ∨ med3 a b c = b ∨ med3 a b c = c := by
  unfold med3
  split
  · split
    · tauto
    · split <;> tauto
  · split
    · tauto
    · split <;> tauto

theorem approximate_median_ge (log : LogStore) :
    ∀ (size start lo : Nat), 0 < size →
      (∀ j, start ≤ j → j < start + size → lo ≤ weightOf log j) →
      lo ≤ approximate_median log start size := by
  intro size
  induction size using Nat.strong_induction_on with
  | _ size ih =>
    intro start lo hpos hb
    rw [approximate_median_eq]
    by_cases hlt2 : size < 2
    · rw [if_pos hlt2]
      exact hb start (Nat.le_refl _) (by omega)
    · rw [if_neg hlt2]
      by_cases hlt3 : size < 3
      · rw [if_pos hlt3]
        have h1 := hb start (Nat.le_refl _) (by omega)
        have h2 := hb (start + 1) (by omega) (by omega)
        omega
      · rw [if_neg hlt3]
        have e1 : lo ≤ approximate_median log start (size / 3) :=
          ih (size / 3) (by omega) start lo (by omega)
            (fun j hj1 hj2 => hb j hj1 (by omega))
        have e2 : lo ≤ approximate_median log (start + size / 3) (size / 3) :=
          ih (size / 3) (by omega) (start + size / 3) lo (by omega)
            (fun j hj1 hj2 => hb j (by omega) (by omega))
        have e3 : lo ≤ approximate_median log (start + size / 3 + size / 3)
            (size - 2 * (size / 3)) :=
          ih (size - 2 * (size / 3)) (by omega) (start + size / 3 + size / 3) lo (by omega)
            (fun j hj1 hj2 => hb j (by omega) (by omega))
        rcases med3_cases (approximate_median log start (size / 3))
          (approximate_median log (start + size / 3) (size / 3))
          (approximate_median log (start + size / 3 + size / 3) (size - 2 * (size / 3)))
          with h | h | h <;> rw [h] <;> assumption

theorem approximate_median_le (log : LogStore) :
    ∀ (size start hi : Nat), 0 < size →
      (∀ j, start ≤ j → j < start + size → weightOf log j ≤ hi) →
      approximate_median log start size ≤ hi := by
  intro size
  induction size using Nat.strong_induction_on with
  | _ size ih =>
    intro start hi hpos hb
    rw [approximate_median_eq]
    by_cases hlt2 : size < 2
    · rw [if_pos hlt2]
      exact hb start (Nat.le_refl _) (by omega)
    · rw [if_neg hlt2]
      by_cases hlt3 : size < 3
      · rw [if_pos hlt3]
        have h1 := hb start (Nat.le_refl _) (by omega)
        have h2 := hb (start + 1) (by omega) (by omega)
        omega
      · rw [if_neg hlt3]
        have e1 : approximate_median log start (size / 3) ≤ hi :=
          ih (size / 3) (by omega) start hi (by omega)
            (fun j hj1 hj2 => hb j hj1 (by omega))
        have e2 : approximate_median log (start + size / 3) (size / 3) ≤ hi :=
          ih (size / 3) (by omega) (start + size / 3) hi (by omega)
            (fun j hj1 hj2 => hb j (by omega) (by omega))
        have e3 : approximate_median log (start + size / 3 + size / 3)
            (size - 2 * (size / 3)) ≤ hi :=
          ih (size - 2 * (size / 3)) (by omega) (start + size / 3 + size / 3) hi (by omega)
            (fun j hj1 hj2 => hb j (by omega) (by omega))
        rcases med3_cases (approximate_median log start (size / 3))
          (approximate_median log (start + size / 3) (size / 3))
          (approximate_median log (start + size / 3 + size / 3) (size - 2 * (size / 3)))
          with h | h | h <;> rw [h] <;> assumption

/-! ### Slot access shims -/

theorem slotAt_setKeySlot_self (log : LogStore) (i : Nat) (k : List Frame)
    (h : i < log.slots.length) :
    slotAt (setKeySlot log i k) i = ⟨k, (slotAt log i).value⟩ :=
  getD_set_self log.slots i _ default h

theorem slotAt_setKeySlot_ne (log : LogStore) (i j : Nat) (k : List Frame)
    (h : i ≠ j) : slotAt (setKeySlot log i k) j = slotAt log j :=
  getD_set_ne log.slots i j _ default h

theorem setKeySlot_freeList (log : LogStore) (i : Nat) (k : List Frame) :
    (setKeySlot log i k).freeList = log.freeList := rfl

theorem setKeySlot_length (log : LogStore) (i : Nat) (k : List Frame) :
    (setKeySlot log i k).slots.length = log.slots.length := by
  simp [setKeySlot]

theorem slotAt_setValueSlot_self (log : LogStore) (i : Nat) (v : Option Nat)
    (h : i < log.slots.length) :
    slotAt (setValueSlot log i v) i = ⟨keyOf log i, v⟩ :=
  getD_set_self log.slots i _ default h

theorem slotAt_setValueSlot_ne (log : LogStore) (i j : Nat) (v : Option Nat)
    (h : i ≠ j) : slotAt (setValueSlot log i v) j = slotAt log j :=
  getD_set_ne log.slots i j _ default h

theorem setValueSlot_freeList (log : LogStore) (i : Nat) (v : Option Nat) :
    (setValueSlot log i v).freeList = log.freeList := rfl

theorem setValueSlot_length (log : LogStore) (i : Nat) (v : Option Nat) :
    (setValueSlot log i v).slots.length = log.slots.length := by
  simp [setValueSlot]

theorem getD_out_of_range {α : Type _} (l : List α) (i : Nat) (d : α)
    (h : l.length ≤ i) : l.getD i d = d := by
  induction l generalizing i with
  | nil => rfl
  | cons x xs ih =>
    cases i with
    | zero => simp at h
    | succ n => exact ih n (by simpa using h)

theorem slotAt_out_of_range (log : LogStore) (i : Nat)
    (h : log.slots.length ≤ i) : slotAt log i = default :=
  getD_out_of_range log.slots i default h

theorem slotAt_make_log_value (C D i : Nat) :
    (slotAt (make_log C D) i).value = none := by
  unfold slotAt make_log
  rw [getD_replicate]
  split <;> rfl

theorem make_log_length (C D : Nat) : (make_log C D).slots.length = C := by
  simp [make_log]

/-! ### Eviction loop machinery -/

theorem evictStep_length (m : Nat) (log : LogStore) (i : Nat) :
    (evictStep m log i).slots.length = log.slots.length := by
  unfold evictStep
  split <;> simp

theorem evictStep_slot_ne (m : Nat) (log : LogStore) (i j : Nat) (h : j ≠ i) :
    slotAt (evictStep m log i) j = slotAt log j := by
  unfold evictStep
  split
  · exact getD_set_ne log.slots i j _ default (fun e => h e.symm)
  · rfl

theorem evictStep_freeList_mono (m : Nat) (log : LogStore) (i x : Nat)
    (h : x ∈ log.freeList) : x ∈ (evictStep m log i).freeList := by
  unfold evictStep
  split
  · exact List.mem_cons_of_mem _ h
  · exact h

theorem evictStep_frees (m : Nat) (log : LogStore) (i : Nat)
    (h : weightOf log i ≤ m) :
    (slotAt (evictStep m log i) i).value = none ∧ i ∈ (evictStep m log i).freeList := by
  unfold evictStep
  rw [if_pos h]
  refine ⟨?_, List.mem_cons_self _ _⟩
  show ((log.slots.set i ⟨List.replicate (keyOf log i).length Frame.nil, none⟩).getD i default).value = none
  by_cases hi : i < log.slots.length
  · rw [getD_set_self log.slots i _ default hi]
  · rw [getD_out_of_range _ i default (by simpa using Nat.le_of_not_lt hi)]
    rfl

theorem foldl_evictStep_length (m : Nat) (l : List Nat) (log : LogStore) :
    (l.foldl (evictStep m) log).slots.length = log.slots.length := by
  induction l generalizing log with
  | nil => rfl
  | cons a t ih => rw [List.foldl_cons, ih, evictStep_length]

theorem foldl_evictStep_slot_ne (m : Nat) (l : List Nat) (j : Nat) (h : j ∉ l) :
    ∀ log, slotAt (l.foldl (evictStep m) log) j = slotAt log j := by
  induction l with
  | nil => intro log; rfl
  | cons a t ih =>
    intro log
    have hj_t : j ∉ t := fun hm => h (List.mem_cons_of_mem _ hm)
    have hj_a : j ≠ a := fun e => h (e ▸ List.mem_cons_self _ _)
    rw [List.foldl_cons, ih hj_t _, evictStep_slot_ne m log a j hj_a]

theorem foldl_evictStep_freeList_mono (m : Nat) (l : List Nat) (x : Nat) :
    ∀ log, x ∈ log.freeList → x ∈ (l.foldl (evictStep m) log).freeList := by
  induction l with
  | nil => intro log h; exact h
  | cons a t ih =>
    intro log h
    rw [List.foldl_cons]
    exact ih _ (evictStep_freeList_mono m log a x h)

theorem foldl_evictStep_frees (m : Nat) (l : List Nat) (j : Nat) :
    ∀ log, l.Nodup → j ∈ l → weightOf log j ≤ m →
      (slotAt (l.foldl (evictStep m) log) j).value = none ∧
        j ∈ (l.foldl (evictStep m) log).freeList := by
  induction l with
  | nil => intro log _ hj; simp at hj
  | cons a t ih =>
    intro log hnd hj hw
    rw [List.foldl_cons]
    rcases List.mem_cons.mp hj with h | h
    · subst h
      have hstep := evictStep_frees m log j hw
      have hnotin : j ∉ t := (List.nodup_cons.mp hnd).1
      refine ⟨?_, foldl_evictStep_freeList_mono m t j _ hstep.2⟩
      rw [foldl_evictStep_slot_ne m t j hnotin _]
      exact hstep.1
    · have hja : j ≠ a := fun e => (List.nodup_cons.mp hnd).1 (e ▸ h)
      have hw' : weightOf (evictStep m log a) j ≤ m := by
        unfold weightOf
        rw [evictStep_slot_ne m log a j hja]
        exact hw
      exact ih _ (List.nodup_cons.mp hnd).2 h hw'

/-! ### Eviction guarantees -/

theorem evict_lower_half_length (log : LogStore) :
    (evict_lower_half log).slots.length = log.slots.length :=
  foldl_evictStep_length _ _ log

theorem evict_lower_half_frees (log : LogStore) (i : Nat)
    (hi : i < log.slots.length)
    (hw : weightOf log i ≤ approximate_median log 0 log.slots.length) :
    (slotAt (evict_lower_half log) i).value = none ∧
      i ∈ (evict_lower_half log).freeList :=
  foldl_evictStep_frees _ (List.range log.slots.length) i log
    (List.nodup_range _) (List.mem_range.mpr hi) hw

theorem exists_min_weight_index (log : LogStore) (h : 0 < log.slots.length) :
    ∃ i, i < log.slots.length ∧
      ∀ j, j < log.slots.length → weightOf log i ≤ weightOf log j := by
  obtain ⟨i, hi, hmin⟩ :=
    Finset.exists_min_image (Finset.range log.slots.length) (weightOf log)
      ⟨0, Finset.mem_range.mpr h⟩
  exact ⟨i, Finset.mem_range.mp hi, fun j hj => hmin j (Finset.mem_range.mpr hj)⟩

theorem evict_lower_half_evicts_min (log : LogStore) (h : 0 < log.slots.length) :
    ∃ i, i < log.slots.length ∧
      (∀ j, j < log.slots.length → weightOf log i ≤ weightOf log j) ∧
      (slotAt (evict_lower_half log) i).value = none ∧
      i ∈ (evict_lower_half log).freeList := by
  obtain ⟨i, hi, hmin⟩ := exists_min_weight_index log h
  have hmed : weightOf log i ≤ approximate_median log 0 log.slots.length :=
    approximate_median_ge log log.slots.length 0 (weightOf log i) h
      (fun j hj1 hj2 => hmin j (by omega))
  obtain ⟨h1, h2⟩ := evict_lower_half_frees log i hi hmed
  exact ⟨i, hi, hmin, h1, h2⟩

theorem evict_lower_half_freeList_ne_nil (log : LogStore)
    (h : 0 < log.slots.length) : (evict_lower_half log).freeList ≠ [] := by
  obtain ⟨i, _, _, _, hmem⟩ := evict_lower_half_evicts_min log h
  exact List.ne_nil_of_mem hmem

theorem occupiedCount_eq_length (log : LogStore)
    (hfull : ∀ i, i < log.slots.length → (slotAt log i).value.isSome = true) :
    occupiedCount log = log.slots.length := by
  unfold occupiedCount
  apply List.countP_eq_length.mpr
  intro a ha
  obtain ⟨⟨i, hi⟩, hget⟩ := List.mem_iff_get.mp ha
  have : slotAt log i = a := by
    unfold slotAt
    rw [List.getD_eq_get log.slots default hi, hget]
  rw [← this] at *
  exact hfull i hi

theorem occupiedCount_evict_lt (log : LogStore) (h : 0 < log.slots.length) :
    occupiedCount (evict_lower_half log) < log.slots.length := by
  obtain ⟨i, hi, _, hfree, _⟩ := evict_lower_half_evicts_min log h
  have hlen := evict_lower_half_length log
  have := countP_lt_length_of_false (fun s => s.value.isSome)
    (evict_lower_half log).slots i default (by omega) (by
      show ((evict_lower_half log).slots.getD i default).value.isSome = false
      have hfree' : ((evict_lower_half log).slots.getD i default).value = none := hfree
      rw [hfree']
      rfl)
  unfold occupiedCount
  omega

/-! ### Claim theorems: eviction and the approximate median -/

/-- C5: end-to-end scenario with capacity 4 and max depth 2: recording four
distinct stacks A, B, C, D with weight 1 each fills the store; recording A
again computes an approximate median of 1 over `{1,1,1,1}`, evicts all four
entries, and re-inserts A fresh, leaving exactly the single entry A with
weight 1. -/
theorem C5_end_to_end_eviction :
    (occupiedCount (runRecords (make_log 4 2)
        [([Frame.fn 0], 1), ([Frame.fn 1], 1), ([Frame.fn 2], 1), ([Frame.fn 3], 1)]) = 4) ∧
    ((runRecords (make_log 4 2)
        [([Frame.fn 0], 1), ([Frame.fn 1], 1), ([Frame.fn 2], 1), ([Frame.fn 3], 1)]).freeList = []) ∧
    (approximate_median (runRecords (make_log 4 2)
        [([Frame.fn 0], 1), ([Frame.fn 1], 1), ([Frame.fn 2], 1), ([Frame.fn 3], 1)]) 0 4 = 1) ∧
    (occupiedCount (evict_lower_half (runRecords (make_log 4 2)
        [([Frame.fn 0], 1), ([Frame.fn 1], 1), ([Frame.fn 2], 1), ([Frame.fn 3], 1)])) = 0) ∧
    (entriesOf (runRecords (make_log 4 2)
        [([Frame.fn 0], 1), ([Frame.fn 1], 1), ([Frame.fn 2], 1), ([Frame.fn 3], 1),
         ([Frame.fn 0], 1)]) = [([Frame.fn 0, Frame.nil], 1)]) := by
  decide

/-- C2 counterexample: on the full store of capacity 2 obtained by recording
two distinct stacks with weight 1 each, `evict_lower_half` evicts both
entries (median 1, both weights `≤ 1`), so the occupied count drops to 0,
refuting the claimed lower bound of 1. -/
theorem C2_counterexample :
    (2 ≤ (runRecords (make_log 2 1)
        [([Frame.fn 0], 1), ([Frame.fn 1], 1)]).slots.length) ∧
    (∀ i, i < (runRecords (make_log 2 1)
        [([Frame.fn 0], 1), ([Frame.fn 1], 1)]).slots.length →
      (slotAt (runRecords (make_log 2 1)
        [([Frame.fn 0], 1), ([Frame.fn 1], 1)]) i).value.isSome = true) ∧
    ¬ (1 ≤ occupiedCount (evict_lower_half (runRecords (make_log 2 1)
        [([Frame.fn 0], 1), ([Frame.fn 1], 1)]))) := by
  decide

/-- C2 (amended): for every full store of capacity C ≥ 2 with all C slots
occupied, after `evict_lower_half` the occupied count lies in [0, C-1]: at
least one entry is removed, but the count can legitimately reach 0 (for
example when all weights are equal, every entry is `≤` the median and all
are evicted). -/
theorem C2_evict_occupancy_amended (log : LogStore)
    (h2 : 2 ≤ log.slots.length)
    (hfull : ∀ i, i < log.slots.length → (slotAt log i).value.isSome = true) :
    occupiedCount (evict_lower_half log) < occupiedCount log ∧
      occupiedCount (evict_lower_half log) ≤ log.slots.length - 1 := by
  have hlt := occupiedCount_evict_lt log (by omega)
  have heq := occupiedCount_eq_length log hfull
  omega

/-- C2 (amended) witness: on a full capacity-2 store with distinct weights
1 and 2, eviction removes exactly the weight-1 entry, leaving 1 entry. -/
theorem C2_evict_occupancy_amended_witness :
    occupiedCount (evict_lower_half (runRecords (make_log 2 1)
        [([Frame.fn 0], 1), ([Frame.fn 1], 2)])) <
      occupiedCount (runRecords (make_log 2 1)
        [([Frame.fn 0], 1), ([Frame.fn 1], 2)]) ∧
    occupiedCount (evict_lower_half (runRecords (make_log 2 1)
        [([Frame.fn 0], 1), ([Frame.fn 1], 2)])) ≤
      (runRecords (make_log 2 1)
        [([Frame.fn 0], 1), ([Frame.fn 1], 2)]).slots.length - 1 :=
  C2_evict_occupancy_amended
    (runRecords (make_log 2 1) [([Frame.fn 0], 1), ([Frame.fn 1], 2)])
    (by decide) (by decide)

/-- C4: on every non-empty full store, `evict_lower_half` evicts every entry
whose weight is `≤` the computed approximate median; the approximate median
is `≥` the minimum weight, so a minimum-weight entry is always evicted and
the occupied count strictly decreases (even when all weights are equal). -/
theorem C4_evict_removes_at_least_one (log : LogStore)
    (hpos : 0 < log.slots.length)
    (hfull : ∀ i, i < log.slots.length → (slotAt log i).value.isSome = true) :
    (∀ i, i < log.slots.length →
        weightOf log i ≤ approximate_median log 0 log.slots.length →
        (slotAt (evict_lower_half log) i).value = none) ∧
    (∃ i, i < log.slots.length ∧
        (∀ j, j < log.slots.length → weightOf log i ≤ weightOf log j) ∧
        weightOf log i ≤ approximate_median log 0 log.slots.length ∧
        (slotAt (evict_lower_half log) i).value = none) ∧
    occupiedCount (evict_lower_half log) < occupiedCount log := by
  refine ⟨fun i hi hw => (evict_lower_half_frees log i hi hw).1, ?_, ?_⟩
  · obtain ⟨i, hi, hmin⟩ := exists_min_weight_index log hpos
    have hmed : weightOf log i ≤ approximate_median log 0 log.slots.length :=
      approximate_median_ge log log.slots.length 0 (weightOf log i) hpos
        (fun j hj1 hj2 => hmin j (by omega))
    exact ⟨i, hi, hmin, hmed, (evict_lower_half_frees log i hi hmed).1⟩
  · have := occupiedCount_evict_lt log hpos
    have := occupiedCount_eq_length log hfull
    omega

/-- C4 witness: the all-equal capacity-2 store; both entries are `≤` the
median, the minimum entry is evicted, occupancy drops from 2 to 0. -/
theorem C4_witness :
    (∀ i, i < (runRecords (make_log 2 1)
        [([Frame.fn 0], 3), ([Frame.fn 1], 3)]).slots.length →
      weightOf (runRecords (make_log 2 1) [([Frame.fn 0], 3), ([Frame.fn 1], 3)]) i ≤
        approximate_median (runRecords (make_log 2 1)
          [([Frame.fn 0], 3), ([Frame.fn 1], 3)]) 0
          (runRecords (make_log 2 1) [([Frame.fn 0], 3), ([Frame.fn 1], 3)]).slots.length →
      (slotAt (evict_lower_half (runRecords (make_log 2 1)
        [([Frame.fn 0], 3), ([Frame.fn 1], 3)])) i).value = none) ∧
    (∃ i, i < (runRecords (make_log 2 1)
        [([Frame.fn 0], 3), ([Frame.fn 1], 3)]).slots.length ∧
      (∀ j, j < (runRecords (make_log 2 1)
          [([Frame.fn 0], 3), ([Frame.fn 1], 3)]).slots.length →
        weightOf (runRecords (make_log 2 1) [([Frame.fn 0], 3), ([Frame.fn 1], 3)]) i ≤
          weightOf (runRecords (make_log 2 1) [([Frame.fn 0], 3), ([Frame.fn 1], 3)]) j) ∧
      weightOf (runRecords (make_log 2 1) [([Frame.fn 0], 3), ([Frame.fn 1], 3)]) i ≤
        approximate_median (runRecords (make_log 2 1)
          [([Frame.fn 0], 3), ([Frame.fn 1], 3)]) 0
          (runRecords (make_log 2 1) [([Frame.fn 0], 3), ([Frame.fn 1], 3)]).slots.length ∧
      (slotAt (evict_lower_half (runRecords (make_log 2 1)
        [([Frame.fn 0], 3), ([Frame.fn 1], 3)])) i).value = none) ∧
    occupiedCount (evict_lower_half (runRecords (make_log 2 1)
        [([Frame.fn 0], 3), ([Frame.fn 1], 3)])) <
      occupiedCount (runRecords (make_log 2 1) [([Frame.fn 0], 3), ([Frame.fn 1], 3)]) :=
  C4_evict_removes_at_least_one
    (runRecords (make_log 2 1) [([Frame.fn 0], 3), ([Frame.fn 1], 3)])
    (by decide) (by decide)

/-- C3: `approximate_median` on a single element returns that element; on
exactly two elements it returns their (integer) mean; and on three or more
elements it returns a value between the true minimum and the true maximum of
the weights in the range. -/
theorem C3_approx_median_bounds (log : LogStore) (start size : Nat) :
    (size = 1 → approximate_median log start size = weightOf log start) ∧
    (size = 2 → approximate_median log start size =
      (weightOf log start + weightOf log (start + 1)) / 2) ∧
    (∀ (h3 : 3 ≤ size)
       (hne : ((Finset.Ico start (start + size)).image (weightOf log)).Nonempty),
       ((Finset.Ico start (start + size)).image (weightOf log)).min' hne ≤
           approximate_median log start size ∧
         approximate_median log start size ≤
           ((Finset.Ico start (start + size)).image (weightOf log)).max' hne) := by
  refine ⟨?_, ?_, ?_⟩
  · intro h
    subst h
    rw [approximate_median_eq]
    norm_num
  · intro h
    subst h
    rw [approximate_median_eq]
    norm_num
  · intro h3 hne
    constructor
    · apply approximate_median_ge log size start _ (by omega)
      intro j hj1 hj2
      exact Finset.min'_le _ _ (Finset.mem_image_of_mem (weightOf log)
        (Finset.mem_Ico.mpr ⟨hj1, hj2⟩))
    · apply approximate_median_le log size start _ (by omega)
      intro j hj1 hj2
      exact Finset.le_max' _ _ (Finset.mem_image_of_mem (weightOf log)
        (Finset.mem_Ico.mpr ⟨hj1, hj2⟩))

/-- C3 witness: concrete instances of all three parts of
`C3_approx_median_bounds` on a capacity-3 store with weights 3, 1, 4. -/
theorem C3_witness :
    (approximate_median (runRecords (make_log 3 1)
        [([Frame.fn 0], 3), ([Frame.fn 1], 1), ([Frame.fn 2], 4)]) 0 1 =
      weightOf (runRecords (make_log 3 1)
        [([Frame.fn 0], 3), ([Frame.fn 1], 1), ([Frame.fn 2], 4)]) 0) ∧
    (approximate_median (runRecords (make_log 3 1)
        [([Frame.fn 0], 3), ([Frame.fn 1], 1), ([Frame.fn 2], 4)]) 0 2 =
      (weightOf (runRecords (make_log 3 1)
          [([Frame.fn 0], 3), ([Frame.fn 1], 1), ([Frame.fn 2], 4)]) 0 +
        weightOf (runRecords (make_log 3 1)
          [([Frame.fn 0], 3), ([Frame.fn 1], 1), ([Frame.fn 2], 4)]) (0 + 1)) / 2) ∧
    (∃ hne : ((Finset.Ico 0 (0 + 3)).image (weightOf (runRecords (make_log 3 1)
        [([Frame.fn 0], 3), ([Frame.fn 1], 1), ([Frame.fn 2], 4)]))).Nonempty,
      ((Finset.Ico 0 (0 + 3)).image (weightOf (runRecords (make_log 3 1)
          [([Frame.fn 0], 3), ([Frame.fn 1], 1), ([Frame.fn 2], 4)]))).min' hne ≤
        approximate_median (runRecords (make_log 3 1)
          [([Frame.fn 0], 3), ([Frame.fn 1], 1), ([Frame.fn 2], 4)]) 0 3 ∧
      approximate_median (runRecords (make_log 3 1)
          [([Frame.fn 0], 3), ([Frame.fn 1], 1), ([Frame.fn 2], 4)]) 0 3 ≤
        ((Finset.Ico 0 (0 + 3)).image (weightOf (runRecords (make_log 3 1)
          [([Frame.fn 0], 3), ([Frame.fn 1], 1), ([Frame.fn 2], 4)]))).max' hne) := by
  refine ⟨(C3_approx_median_bounds (runRecords (make_log 3 1)
      [([Frame.fn 0], 3), ([Frame.fn 1], 1), ([Frame.fn 2], 4)]) 0 1).1 rfl,
    (C3_approx_median_bounds (runRecords (make_log 3 1)
      [([Frame.fn 0], 3), ([Frame.fn 1], 1), ([Frame.fn 2], 4)]) 0 2).2.1 rfl, ?_⟩
  have hne : ((Finset.Ico 0 (0 + 3)).image (weightOf (runRecords (make_log 3 1)
      [([Frame.fn 0], 3), ([Frame.fn 1], 1), ([Frame.fn 2], 4)]))).Nonempty :=
    ⟨weightOf (runRecords (make_log 3 1)
        [([Frame.fn 0], 3), ([Frame.fn 1], 1), ([Frame.fn 2], 4)]) 0,
      Finset.mem_image_of_mem _ (Finset.mem_Ico.mpr ⟨Nat.le_refl 0, by norm_num⟩)⟩
  exact ⟨hne, (C3_approx_median_bounds (runRecords (make_log 3 1)
      [([Frame.fn 0], 3), ([Frame.fn 1], 1), ([Frame.fn 2], 4)]) 0 3).2.2
    (by norm_num) hne⟩

/-- C8: calling start on a sampler (CPU or memory) that is already running
reports AlreadyRunning and returns the sampler state exactly unchanged. -/
theorem C8_start_already_running (heap_size max_stack_depth sample_interval : Nat)
    (st : CpuState) (stm : MemState)
    (hc : st.profiler_cpu_running = true)
    (hm : stm.profiler_memory_running = true) :
    Fprofiler_cpu_start heap_size max_stack_depth sample_interval st =
        (st, some ProfErr.alreadyRunning) ∧
      Fprofiler_memory_start heap_size max_stack_depth stm =
        (stm, some ProfErr.alreadyRunning) := by
  constructor
  · unfold Fprofiler_cpu_start
    rw [if_pos hc]
  · unfold Fprofiler_memory_start
    rw [if_pos hm]

/-- C8 witness: a concrete running CPU sampler and running memory sampler. -/
theorem C8_witness :
    Fprofiler_cpu_start 4 2 5 ⟨true, some (make_log 4 2), 7, 3⟩ =
        (⟨true, some (make_log 4 2), 7, 3⟩, some ProfErr.alreadyRunning) ∧
      Fprofiler_memory_start 4 2 ⟨true, some (make_log 4 2)⟩ =
        (⟨true, some (make_log 4 2)⟩, some ProfErr.alreadyRunning) :=
  C8_start_already_running 4 2 5 ⟨true, some (make_log 4 2), 7, 3⟩
    ⟨true, some (make_log 4 2)⟩ rfl rfl

/-! ### Recording protocol: shape and length preservation -/

theorem set_out_of_range {α : Type _} (l : List α) (i : Nat) (a : α)
    (h : l.length ≤ i) : l.set i a = l := by
  induction l generalizing i with
  | nil => rfl
  | cons x xs ih =>
    cases i with
    | zero => simp at h
    | succ n => simpa using ih n (by simpa using h)

theorem evictIfFull_length (log : LogStore) :
    (evictIfFull log).slots.length = log.slots.length := by
  unfold evictIfFull
  split
  · exact evict_lower_half_length log
  · rfl

theorem evictIfFull_freeList_ne_nil (log : LogStore) (h : 0 < log.slots.length) :
    (evictIfFull log).freeList ≠ [] := by
  unfold evictIfFull
  by_cases hfl : log.freeList.isEmpty
  · rw [if_pos hfl]
    exact evict_lower_half_freeList_ne_nil log h
  · rw [if_neg hfl]
    intro hnil
    exact hfl (by rw [hnil]; rfl)

theorem record_eq_found (log0 : LogStore) (bt : List Frame) (w index : Nat)
    (rest : List Nat) (j : Nat)
    (hfl : (evictIfFull log0).freeList = index :: rest)
    (hlook : hash_lookup
        (setKeySlot (evictIfFull log0) index
          (captureBacktrace bt (keyOf (evictIfFull log0) index).length))
        (captureBacktrace bt (keyOf (evictIfFull log0) index).length) = some j) :
    record_backtrace log0 bt w =
      setValueSlot
        (setKeySlot (evictIfFull log0) index
          (captureBacktrace bt (keyOf (evictIfFull log0) index).length)) j
        (some (w + weightOf
          (setKeySlot (evictIfFull log0) index
            (captureBacktrace bt (keyOf (evictIfFull log0) index).length)) j)) := by
  simp only [record_backtrace]
  rw [hfl]
  simp only [List.headD_cons]
  rw [hlook]

theorem record_eq_notfound (log0 : LogStore) (bt : List Frame) (w index : Nat)
    (rest : List Nat)
    (hfl : (evictIfFull log0).freeList = index :: rest)
    (hlook : hash_lookup
        (setKeySlot (evictIfFull log0) index
          (captureBacktrace bt (keyOf (evictIfFull log0) index).length))
        (captureBacktrace bt (keyOf (evictIfFull log0) index).length) = none) :
    record_backtrace log0 bt w =
      { slots := (setKeySlot (evictIfFull log0) index
            (captureBacktrace bt (keyOf (evictIfFull log0) index).length)).slots.set index
            ⟨captureBacktrace bt (keyOf (evictIfFull log0) index).length, some w⟩,
        freeList := rest } := by
  simp only [record_backtrace]
  rw [hfl]
  simp only [List.headD_cons]
  rw [hlook]
  simp only [hash_put, setKeySlot_freeList]
  rw [hfl]

theorem record_backtrace_length (log0 : LogStore) (bt : List Frame) (w : Nat)
    (h : 0 < log0.slots.length) :
    (record_backtrace log0 bt w).slots.length = log0.slots.length := by
  obtain ⟨index, rest, hfl⟩ :=
    List.exists_cons_of_ne_nil (evictIfFull_freeList_ne_nil log0 h)
  cases hlook : hash_lookup
      (setKeySlot (evictIfFull log0) index
        (captureBacktrace bt (keyOf (evictIfFull log0) index).length))
      (captureBacktrace bt (keyOf (evictIfFull log0) index).length) with
  | some j =>
    rw [record_eq_found log0 bt w index rest j hfl hlook,
        setValueSlot_length, setKeySlot_length, evictIfFull_length]
  | none =>
    rw [record_eq_notfound log0 bt w index rest hfl hlook]
    show ((setKeySlot (evictIfFull log0) index
        (captureBacktrace bt (keyOf (evictIfFull log0) index).length)).slots.set index
        ⟨captureBacktrace bt (keyOf (evictIfFull log0) index).length, some w⟩).length =
      log0.slots.length
    rw [List.length_set, setKeySlot_length, evictIfFull_length]

theorem runRecords_length (calls : List (List Frame × Nat)) :
    ∀ log : LogStore, 0 < log.slots.length →
      (runRecords log calls).slots.length = log.slots.length := by
  induction calls with
  | nil => intro log _; rfl
  | cons c t ih =>
    intro log h
    show (runRecords (record_backtrace log c.1 c.2) t).slots.length = log.slots.length
    rw [ih (record_backtrace log c.1 c.2)
          (by rw [record_backtrace_length log c.1 c.2 h]; exact h),
        record_backtrace_length log c.1 c.2 h]

/-- C1: for every sequence of `record_backtrace` calls on a store created with
capacity C > 0, the number of occupied entries never exceeds C: when the store
is full, `record_backtrace` evicts before inserting, so the slot array never
grows and occupancy stays bounded by C. -/
theorem C1_occupancy_bound (C D : Nat) (calls : List (List Frame × Nat))
    (hC : 0 < C) :
    occupiedCount (runRecords (make_log C D) calls) ≤ C := by
  have hlen : (runRecords (make_log C D) calls).slots.length = C := by
    rw [runRecords_length calls (make_log C D) (by rw [make_log_length]; exact hC),
        make_log_length]
  calc occupiedCount (runRecords (make_log C D) calls)
      ≤ (runRecords (make_log C D) calls).slots.length :=
        List.countP_le_length _
    _ = C := hlen

/-- C1 witness: capacity 2, a run of three records (the third triggers
eviction) stays within the bound. -/
theorem C1_witness :
    occupiedCount (runRecords (make_log 2 1)
      [([Frame.fn 0], 1), ([Frame.fn 1], 1), ([Frame.fn 2], 1)]) ≤ 2 :=
  C1_occupancy_bound 2 1 [([Frame.fn 0], 1), ([Frame.fn 1], 1), ([Frame.fn 2], 1)]
    (by decide)

/-- C9: `record_backtrace` never reaches the allocating path: on every store
reachable from `make_log C D` (C > 0) by a sequence of records, the free list
at the insertion point (after the conditional eviction pass) is non-empty —
`next_free` is an integer, so the allocating branch of `hash_put` is
unreachable — and recording never grows the slot array. -/
theorem C9_no_allocation (C D : Nat) (calls : List (List Frame × Nat))
    (bt : List Frame) (w : Nat) (hC : 0 < C) :
    (evictIfFull (runRecords (make_log C D) calls)).freeList ≠ [] ∧
      (record_backtrace (runRecords (make_log C D) calls) bt w).slots.length = C := by
  have hlen : (runRecords (make_log C D) calls).slots.length = C := by
    rw [runRecords_length calls (make_log C D) (by rw [make_log_length]; exact hC),
        make_log_length]
  constructor
  · exact evictIfFull_freeList_ne_nil _ (by omega)
  · rw [record_backtrace_length _ bt w (by omega), hlen]

/-- C9 witness: a full capacity-1 store; the eviction pass frees the slot and
the insert happens without growing the table. -/
theorem C9_witness :
    (evictIfFull (runRecords (make_log 1 1) [([Frame.fn 0], 1)])).freeList ≠ [] ∧
      (record_backtrace (runRecords (make_log 1 1) [([Frame.fn 0], 1)])
        [Frame.fn 1] 2).slots.length = 1 :=
  C9_no_allocation 1 1 [([Frame.fn 0], 1)] [Frame.fn 1] 2 (by decide)

/-! ### Fputhash and lookup stability -/

theorem getD_append_left {α : Type _} (l1 l2 : List α) (i : Nat) (d : α)
    (h : i < l1.length) : (l1 ++ l2).getD i d = l1.getD i d := by
  induction l1 generalizing i with
  | nil => simp at h
  | cons x xs ih =>
    cases i with
    | zero => rfl
    | succ n => exact ih n (by simpa using h)

theorem getD_append_self {α : Type _} (l : List α) (x d : α) :
    (l ++ [x]).getD l.length d = x := by
  induction l with
  | nil => rfl
  | cons y ys ih => simpa using ih

theorem hash_lookup_setValueSlot_self (log : LogStore) (j : Nat) (v : Nat)
    (key : List Frame)
    (h : hash_lookup log key = some j) :
    hash_lookup (setValueSlot log j (some v)) key = some j := by
  obtain ⟨hj, hm, hb⟩ := hash_lookup_some log key j h
  apply hash_lookup_intro
  · rw [setValueSlot_length]
    exact hj
  · show ((setValueSlot log j (some v)).slots.getD j default).value.isSome = true ∧
      ((setValueSlot log j (some v)).slots.getD j default).key = key
    show ((log.slots.set j ⟨keyOf log j, some v⟩).getD j default).value.isSome = true ∧
      ((log.slots.set j ⟨keyOf log j, some v⟩).getD j default).key = key
    rw [getD_set_self log.slots j _ default hj]
    exact ⟨rfl, hm.2⟩
  · intro k hk
    show ¬ ((((setValueSlot log j (some v)).slots.getD k default).value.isSome = true) ∧
      ((setValueSlot log j (some v)).slots.getD k default).key = key)
    show ¬ ((((log.slots.set j ⟨keyOf log j, some v⟩).getD k default).value.isSome = true) ∧
      ((log.slots.set j ⟨keyOf log j, some v⟩).getD k default).key = key)
    rw [getD_set_ne log.slots j k _ default (by omega)]
    exact hb k hk

theorem Fputhash_getWeight (log : LogStore) (k : List Frame) (v : Nat)
    (hfl : ∀ i ∈ log.freeList, i < log.slots.length) :
    getWeight (Fputhash k v log) k = some v := by
  unfold Fputhash
  cases hlook : hash_lookup log k with
  | some j =>
    obtain ⟨hj, hm, hb⟩ := hash_lookup_some log k j hlook
    unfold getWeight
    rw [hash_lookup_setValueSlot_self log j v k hlook]
    show some (weightOf (setValueSlot log j (some v)) j) = some v
    unfold weightOf slotAt
    show some (((log.slots.set j ⟨keyOf log j, some v⟩).getD j default).value.getD 0) = some v
    rw [getD_set_self log.slots j _ default hj]
    rfl
  | none =>
    have hnone := (hash_lookup_none_iff log k).mp hlook
    cases hfree : log.freeList with
    | nil =>
      unfold getWeight
      have hput : (hash_put log k v).2 =
          { slots := log.slots ++ [⟨k, some v⟩], freeList := [] } := by
        unfold hash_put
        rw [hfree]
      rw [hput]
      have hlook2 : hash_lookup
          ({ slots := log.slots ++ [⟨k, some v⟩], freeList := [] } : LogStore) k =
          some log.slots.length := by
        apply hash_lookup_intro
        · simp
        · show (((log.slots ++ [(⟨k, some v⟩ : Slot)]).getD log.slots.length default).value.isSome = true) ∧
            ((log.slots ++ [(⟨k, some v⟩ : Slot)]).getD log.slots.length default).key = k
          rw [getD_append_self]
          exact ⟨rfl, rfl⟩
        · intro m hm
          show ¬ ((((log.slots ++ [(⟨k, some v⟩ : Slot)]).getD m default).value.isSome = true) ∧
            ((log.slots ++ [(⟨k, some v⟩ : Slot)]).getD m default).key = k)
          rw [getD_append_left log.slots _ m default hm]
          exact hnone m hm
      rw [hlook2]
      show some (weightOf _ log.slots.length) = some v
      unfold weightOf slotAt
      show some (((log.slots ++ [(⟨k, some v⟩ : Slot)]).getD log.slots.length default).value.getD 0) = some v
      rw [getD_append_self]
      rfl
    | cons i rest =>
      have hi : i < log.slots.length := hfl i (by rw [hfree]; exact List.mem_cons_self _ _)
      unfold getWeight
      have hput : (hash_put log k v).2 =
          { slots := log.slots.set i ⟨k, some v⟩, freeList := rest } := by
        unfold hash_put
        rw [hfree]
      rw [hput]
      have hlook2 : hash_lookup
          ({ slots := log.slots.set i ⟨k, some v⟩, freeList := rest } : LogStore) k =
          some i := by
        apply hash_lookup_intro
        · simpa using hi
        · show (((log.slots.set i ⟨k, some v⟩).getD i default).value.isSome = true) ∧
            ((log.slots.set i ⟨k, some v⟩).getD i default).key = k
          rw [getD_set_self log.slots i _ default hi]
          exact ⟨rfl, rfl⟩
        · intro m hm
          show ¬ ((((log.slots.set i ⟨k, some v⟩).getD m default).value.isSome = true) ∧
            ((log.slots.set i ⟨k, some v⟩).getD m default).key = k)
          rw [getD_set_ne log.slots i m _ default (by omega)]
          exact hnone m (by omega)
      rw [hlook2]
      show some (weightOf _ i) = some v
      unfold weightOf slotAt
      show some (((log.slots.set i ⟨k, some v⟩).getD i default).value.getD 0) = some v
      rw [getD_set_self log.slots i _ default hi]
      rfl

/-- C10: every call to `Fprofiler_cpu_log` on a state with a present store
unconditionally inserts the synthetic GC entry into the outgoing log: the
returned log contains an entry keyed by the 1-element GC-sentinel vector
whose weight is exactly the GC accumulator at read time — weight 0 when no
GC samples were taken since the last read. -/
theorem C10_gc_entry_always_present (heap_size max_stack_depth : Nat)
    (st : CpuState) (log : LogStore)
    (hlog : st.cpu_log = some log)
    (hfl : ∀ i ∈ log.freeList, i < log.slots.length) :
    ∃ outLog, (Fprofiler_cpu_log heap_size max_stack_depth st).1 = some outLog ∧
      getWeight outLog [Frame.gc] = some st.cpu_gc_count ∧
      ([Frame.gc] : List Frame).length = 1 ∧
      (st.cpu_gc_count = 0 → getWeight outLog [Frame.gc] = some 0) := by
  refine ⟨Fputhash [Frame.gc] st.cpu_gc_count log, ?_, ?_, rfl, ?_⟩
  · show (st.cpu_log.map (Fputhash [Frame.gc] st.cpu_gc_count)) =
      some (Fputhash [Frame.gc] st.cpu_gc_count log)
    rw [hlog]
    rfl
  · exact Fputhash_getWeight log [Frame.gc] st.cpu_gc_count hfl
  · intro h
    rw [← h]
    exact Fputhash_getWeight log [Frame.gc] st.cpu_gc_count hfl

/-- C10 witness: reading a concrete running state with GC accumulator 5
produces a log holding the GC entry with weight 5. -/
theorem C10_witness :
    ∃ outLog, (Fprofiler_cpu_log 2 1 ⟨true, some (make_log 2 1), 5, 3⟩).1 = some outLog ∧
      getWeight outLog [Frame.gc] = some (5 : Nat) ∧
      ([Frame.gc] : List Frame).length = 1 ∧
      ((5 : Nat) = 0 → getWeight outLog [Frame.gc] = some 0) :=
  C10_gc_entry_always_present 2 1 ⟨true, some (make_log 2 1), 5, 3⟩ (make_log 2 1)
    rfl (by decide)

/-! ### No-eviction record specification -/

theorem evictIfFull_eq_self (log : LogStore) (h : log.freeList ≠ []) :
    evictIfFull log = log := by
  cases hfl : log.freeList with
  | nil => exact absurd hfl h
  | cons a t => simp [evictIfFull, hfl]

theorem totalWeight_set_slots (slots : List Slot) (fl fl' : List Nat) (i : Nat)
    (s : Slot) (hi : i < slots.length) :
    totalWeight { slots := slots.set i s, freeList := fl' } +
        (slots.getD i default).value.getD 0 =
      totalWeight { slots := slots, freeList := fl } + s.value.getD 0 := by
  unfold totalWeight
  have h := sum_map_set (fun s => s.value.getD 0) slots i s default hi
  simpa using h

theorem slotAt_mk (slots : List Slot) (fl : List Nat) (i : Nat) :
    slotAt { slots := slots, freeList := fl } i = slots.getD i default := rfl

theorem totalWeight_setKeySlot (log : LogStore) (i : Nat) (k : List Frame) :
    totalWeight (setKeySlot log i k) = totalWeight log := by
  by_cases hi : i < log.slots.length
  · have h := totalWeight_set_slots log.slots log.freeList log.freeList i
      ⟨k, (slotAt log i).value⟩ hi
    have h1 : totalWeight { slots := log.slots, freeList := log.freeList } = totalWeight log := rfl
    have h2 : totalWeight (setKeySlot log i k) =
        totalWeight { slots := log.slots.set i ⟨k, (slotAt log i).value⟩,
                      freeList := log.freeList } := rfl
    have h3 : ((⟨k, (slotAt log i).value⟩ : Slot)).value.getD 0 =
        (log.slots.getD i default).value.getD 0 := rfl
    rw [h2]
    omega
  · show totalWeight { log with slots := log.slots.set i ⟨k, (slotAt log i).value⟩ } =
      totalWeight log
    rw [set_out_of_range log.slots i _ (by omega)]

theorem totalWeight_setValueSlot (log : LogStore) (j : Nat) (v : Nat)
    (hj : j < log.slots.length) :
    totalWeight (setValueSlot log j (some v)) + weightOf log j = totalWeight log + v := by
  have h := totalWeight_set_slots log.slots log.freeList log.freeList j ⟨keyOf log j, some v⟩ hj
  exact h

theorem totalWeight_set_insert (log : LogStore) (index : Nat) (k : List Frame)
    (w : Nat) (fl : List Nat) (hidx : index < log.slots.length)
    (hfree : (slotAt log index).value = none) :
    totalWeight { slots := log.slots.set index ⟨k, some w⟩, freeList := fl } =
      totalWeight log + w := by
  have h := totalWeight_set_slots log.slots log.freeList fl index ⟨k, some w⟩ hidx
  have h0 : (log.slots.getD index default).value.getD 0 = 0 := by
    have he : (log.slots.getD index default).value = none := hfree
    rw [he]
    rfl
  have heta : totalWeight { slots := log.slots, freeList := log.freeList } =
      totalWeight log := rfl
  have hv : ((⟨k, some w⟩ : Slot)).value.getD 0 = w := rfl
  rw [h0, heta, hv] at h
  omega

theorem record_no_evict_main (log : LogStore) (bt : List Frame) (w : Nat)
    (hwf : StoreWF log) (hne : log.freeList ≠ []) :
    StoreWF (record_backtrace log bt w) ∧
    totalWeight (record_backtrace log bt w) = totalWeight log + w ∧
    (record_backtrace log bt w).slots.length = log.slots.length ∧
    (∀ i, i < log.slots.length →
      (slotAt (record_backtrace log bt w) i).value.isSome = true →
      ((slotAt (record_backtrace log bt w) i).key = (slotAt log i).key ∧
        (slotAt log i).value.isSome = true) ∨
      (slotAt (record_backtrace log bt w) i).key =
        captureBacktrace bt (keyOf log (log.freeList.headD 0)).length) := by
  obtain ⟨index, rest, hfl⟩ := List.exists_cons_of_ne_nil hne
  obtain ⟨hnd, hmem, hfree_in⟩ := hwf
  have hidx_mem : index ∈ log.freeList := by
    rw [hfl]; exact List.mem_cons_self _ _
  have hidx_lt : index < log.slots.length := (hmem index hidx_mem).1
  have hidx_free : (slotAt log index).value = none := (hmem index hidx_mem).2
  have hEq : evictIfFull log = log := evictIfFull_eq_self log hne
  have hfl' : (evictIfFull log).freeList = index :: rest := by rw [hEq]; exact hfl
  have hheadD : log.freeList.headD 0 = index := by rw [hfl]; rfl
  rw [hheadD]
  have hlog1_len : (setKeySlot log index (captureBacktrace bt (keyOf log index).length)).slots.length
      = log.slots.length := setKeySlot_length _ _ _
  have hlog1_at_index :
      slotAt (setKeySlot log index (captureBacktrace bt (keyOf log index).length)) index =
        ⟨captureBacktrace bt (keyOf log index).length, none⟩ := by
    rw [slotAt_setKeySlot_self _ _ _ hidx_lt, hidx_free]
  have hlog1_at_ne : ∀ j, j ≠ index →
      slotAt (setKeySlot log index (captureBacktrace bt (keyOf log index).length)) j =
        slotAt log j :=
    fun j hj => slotAt_setKeySlot_ne log index j _ (fun e => hj e.symm)
  cases hlook : hash_lookup
      (setKeySlot log index (captureBacktrace bt (keyOf log index).length))
      (captureBacktrace bt (keyOf log index).length) with
  | some j =>
    have hrec : record_backtrace log bt w =
        setValueSlot (setKeySlot log index (captureBacktrace bt (keyOf log index).length)) j
          (some (w + weightOf
            (setKeySlot log index (captureBacktrace bt (keyOf log index).length)) j)) := by
      have h := record_eq_found log bt w index rest j hfl' (by rw [hEq]; exact hlook)
      rw [hEq] at h
      exact h
    obtain ⟨hj_lt1, hj_match, hj_before⟩ := hash_lookup_some _ _ j hlook
    have hj_lt : j < log.slots.length := by rw [hlog1_len] at hj_lt1; exact hj_lt1
    have hj_ne_index : j ≠ index := by
      intro e
      subst e
      have h1 : (slotAt (setKeySlot log j (captureBacktrace bt (keyOf log j).length)) j).value.isSome
          = true := hj_match.1
      rw [hlog1_at_index] at h1
      simp at h1
    have hj_slot : slotAt (setKeySlot log index (captureBacktrace bt (keyOf log index).length)) j
        = slotAt log j := hlog1_at_ne j hj_ne_index
    have hj_occ : (slotAt log j).value.isSome = true := by
      rw [← hj_slot]; exact hj_match.1
    rw [hrec]
    have hres_at : ∀ i, i ≠ j →
        slotAt (setValueSlot (setKeySlot log index (captureBacktrace bt (keyOf log index).length)) j
          (some (w + weightOf (setKeySlot log index (captureBacktrace bt (keyOf log index).length)) j))) i =
        slotAt (setKeySlot log index (captureBacktrace bt (keyOf log index).length)) i :=
      fun i hi => slotAt_setValueSlot_ne _ j i _ (fun e => hi e.symm)
    have hres_at_j :
        slotAt (setValueSlot (setKeySlot log index (captureBacktrace bt (keyOf log index).length)) j
          (some (w + weightOf (setKeySlot log index (captureBacktrace bt (keyOf log index).length)) j))) j =
        ⟨keyOf (setKeySlot log index (captureBacktrace bt (keyOf log index).length)) j,
          some (w + weightOf (setKeySlot log index (captureBacktrace bt (keyOf log index).length)) j)⟩ :=
      slotAt_setValueSlot_self _ j _ hj_lt1
    have hres_fl :
        (setValueSlot (setKeySlot log index (captureBacktrace bt (keyOf log index).length)) j
          (some (w + weightOf (setKeySlot log index (captureBacktrace bt (keyOf log index).length)) j))).freeList =
        log.freeList := rfl
    have hres_len :
        (setValueSlot (setKeySlot log index (captureBacktrace bt (keyOf log index).length)) j
          (some (w + weightOf (setKeySlot log index (captureBacktrace bt (keyOf log index).length)) j))).slots.length =
        log.slots.length := by
      rw [setValueSlot_length, hlog1_len]
    refine ⟨⟨?_, ?_, ?_⟩, ?_, hres_len, ?_⟩
    · rw [hres_fl]; exact hnd
    · intro i hi
      rw [hres_fl] at hi
      refine ⟨by rw [hres_len]; exact (hmem i hi).1, ?_⟩
      have hij : i ≠ j := by
        intro e
        subst e
        rw [(hmem i hi).2] at hj_occ
        simp at hj_occ
      rw [hres_at i hij]
      by_cases hidx : i = index
      · subst hidx; rw [hlog1_at_index]
      · rw [hlog1_at_ne i hidx]; exact (hmem i hi).2
    · intro i hi hv
      rw [hres_fl]
      rw [hres_len] at hi
      by_cases hij : i = j
      · subst hij
        rw [hres_at_j] at hv
        simp at hv
      · rw [hres_at i hij] at hv
        by_cases hidx : i = index
        · subst hidx; exact hidx_mem
        · rw [hlog1_at_ne i hidx] at hv
          exact hfree_in i hi hv
    · have h := totalWeight_setValueSlot
        (setKeySlot log index (captureBacktrace bt (keyOf log index).length)) j
        (w + weightOf (setKeySlot log index (captureBacktrace bt (keyOf log index).length)) j)
        hj_lt1
      have hsk : totalWeight (setKeySlot log index (captureBacktrace bt (keyOf log index).length)) =
          totalWeight log := totalWeight_setKeySlot log index _
      omega
    · intro i hi hv
      by_cases hij : i = j
      · subst hij
        rw [hres_at_j]
        left
        refine ⟨?_, hj_occ⟩
        show (slotAt (setKeySlot log index (captureBacktrace bt (keyOf log index).length)) i).key =
          (slotAt log i).key
        exact congrArg Slot.key hj_slot
      · rw [hres_at i hij] at hv ⊢
        by_cases hidx : i = index
        · subst hidx
          rw [hlog1_at_index] at hv
          simp at hv
        · rw [hlog1_at_ne i hidx] at hv ⊢
          exact Or.inl ⟨rfl, hv⟩
  | none =>
    have hrec : record_backtrace log bt w =
        { slots := (setKeySlot log index (captureBacktrace bt (keyOf log index).length)).slots.set index
            ⟨captureBacktrace bt (keyOf log index).length, some w⟩,
          freeList := rest } := by
      have h := record_eq_notfound log bt w index rest hfl' (by rw [hEq]; exact hlook)
      rw [hEq] at h
      exact h
    have hidx_lt1 : index <
        (setKeySlot log index (captureBacktrace bt (keyOf log index).length)).slots.length := by
      rw [hlog1_len]; exact hidx_lt
    have hres_at_index :
        slotAt (record_backtrace log bt w) index =
          ⟨captureBacktrace bt (keyOf log index).length, some w⟩ := by
      rw [hrec, slotAt_mk]
      exact getD_set_self _ index _ default hidx_lt1
    have hres_at_ne : ∀ i, i ≠ index →
        slotAt (record_backtrace log bt w) i = slotAt log i := by
      intro i hi
      rw [hrec, slotAt_mk, getD_set_ne _ index i _ default (fun e => hi e.symm)]
      exact hlog1_at_ne i hi
    have hres_len : (record_backtrace log bt w).slots.length = log.slots.length := by
      rw [hrec]
      show ((setKeySlot log index (captureBacktrace bt (keyOf log index).length)).slots.set index
          ⟨captureBacktrace bt (keyOf log index).length, some w⟩).length = log.slots.length
      rw [List.length_set, hlog1_len]
    have hres_fl : (record_backtrace log bt w).freeList = rest := by rw [hrec]
    have hnd' : (index :: rest).Nodup := by rw [← hfl]; exact hnd
    have hidx_notin : index ∉ rest := (List.nodup_cons.mp hnd').1
    refine ⟨⟨?_, ?_, ?_⟩, ?_, hres_len, ?_⟩
    · rw [hres_fl]
      exact (List.nodup_cons.mp hnd').2
    · intro i hi
      rw [hres_fl] at hi
      have hi_mem : i ∈ log.freeList := by
        rw [hfl]; exact List.mem_cons_of_mem _ hi
      have hi_ne : i ≠ index := fun e => hidx_notin (e ▸ hi)
      refine ⟨by rw [hres_len]; exact (hmem i hi_mem).1, ?_⟩
      rw [hres_at_ne i hi_ne]
      exact (hmem i hi_mem).2
    · intro i hi hv
      rw [hres_fl]
      rw [hres_len] at hi
      by_cases hidx : i = index
      · subst hidx
        rw [hres_at_index] at hv
        simp at hv
      · rw [hres_at_ne i hidx] at hv
        have hm := hfree_in i hi hv
        rw [hfl] at hm
        rcases List.mem_cons.mp hm with h | h
        · exact absurd h hidx
        · exact h
    · have h := totalWeight_set_insert
        (setKeySlot log index (captureBacktrace bt (keyOf log index).length)) index
        (captureBacktrace bt (keyOf log index).length) w rest hidx_lt1
        (by rw [hlog1_at_index])
      have hsk : totalWeight (setKeySlot log index (captureBacktrace bt (keyOf log index).length)) =
          totalWeight log := totalWeight_setKeySlot log index _
      rw [hrec, h, hsk]
    · intro i hi hv
      by_cases hidx : i = index
      · subst hidx
        rw [hres_at_index]
        right
        rfl
      · rw [hres_at_ne i hidx] at hv ⊢
        exact Or.inl ⟨rfl, hv⟩

/-! ### Duplicate-snapshot accumulation -/

theorem hash_lookup_setKeySlot_free (log : LogStore) (i : Nat) (k key : List Frame)
    (hfree : (slotAt log i).value = none) :
    hash_lookup (setKeySlot log i k) key = hash_lookup log key := by
  have hlen : (setKeySlot log i k).slots.length = log.slots.length :=
    setKeySlot_length log i k
  have hk : ∀ m, m < (setKeySlot log i k).slots.length →
      (matchAt key (setKeySlot log i k).slots m ↔ matchAt key log.slots m) := by
    intro m hm
    by_cases hmi : m = i
    · subst hmi
      have hlt : m < log.slots.length := by rw [hlen] at hm; exact hm
      constructor
      · intro hmm
        exfalso
        have h1 : (slotAt (setKeySlot log m k) m).value.isSome = true := hmm.1
        rw [slotAt_setKeySlot_self log m k hlt] at h1
        have h2 : (slotAt log m).value.isSome = true := h1
        rw [hfree] at h2
        simp at h2
      · intro hmm
        exfalso
        have h1 : (slotAt log m).value.isSome = true := hmm.1
        rw [hfree] at h1
        simp at h1
    · have hs : (setKeySlot log i k).slots.getD m default = log.slots.getD m default :=
        slotAt_setKeySlot_ne log i m k (fun e => hmi e.symm)
      unfold matchAt
      rw [hs]
  exact lookupAux_ext key (setKeySlot log i k).slots log.slots 0 hlen hk

theorem countP_eq_one_of_unique {α : Type _} (p : α → Bool) (l : List α) (i : Nat)
    (d : α) (hi : i < l.length) (hp : p (l.getD i d) = true)
    (hq : ∀ j, j < l.length → j ≠ i → p (l.getD j d) = false) : l.countP p = 1 := by
  induction l generalizing i with
  | nil => simp at hi
  | cons x xs ih =>
    cases i with
    | zero =>
      have hx : p x = true := hp
      have hxs : xs.countP p = 0 := by
        apply List.countP_eq_zero.mpr
        intro a ha
        obtain ⟨⟨m, hm⟩, hget⟩ := List.mem_iff_get.mp ha
        have hj := hq (m + 1) (by simpa using hm) (by omega)
        have hgd : xs.getD m d = a := by
          rw [List.getD_eq_getElem?_getD]
          simp [hm, ← hget]
        have hgd2 : (x :: xs).getD (m + 1) d = xs.getD m d := rfl
        rw [hgd2, hgd] at hj
        simp [hj]
      simp [List.countP_cons, hxs, hx]
    | succ m =>
      have hx : p x = false := hq 0 (by simp) (by omega)
      have hrec := ih m (by simpa using hi) hp
        (fun j hj hne => hq (j + 1) (by simp only [List.length_cons]; omega) (by omega))
      simp [List.countP_cons, hx, hrec]

/-- C6: on a store that is not full before either call, two
`record_backtrace` calls capturing identical snapshots (all key buffers have
uniform depth D and the snapshot is not yet present) produce a single store
entry whose accumulated weight is the sum of the two calls' weights: the
second call finds the first call's entry by lookup and adds its weight. -/
theorem C6_identical_snapshots_accumulate (log : LogStore) (bt : List Frame)
    (w1 w2 D : Nat)
    (hwf : StoreWF log)
    (hdepth : ∀ i, i < log.slots.length → (keyOf log i).length = D)
    (hne1 : log.freeList ≠ [])
    (hne2 : (record_backtrace log bt w1).freeList ≠ [])
    (hnew : hash_lookup log (captureBacktrace bt D) = none) :
    getWeight (record_backtrace (record_backtrace log bt w1) bt w2)
        (captureBacktrace bt D) = some (w1 + w2) ∧
    (record_backtrace (record_backtrace log bt w1) bt w2).slots.countP
        (fun s => s.value.isSome && decide (s.key = captureBacktrace bt D)) = 1 := by
  obtain ⟨index, rest, hfl⟩ := List.exists_cons_of_ne_nil hne1
  obtain ⟨hnd, hmem, hfree_in⟩ := hwf
  have hidx_mem : index ∈ log.freeList := by rw [hfl]; exact List.mem_cons_self _ _
  have hidx_lt : index < log.slots.length := (hmem index hidx_mem).1
  have hidx_free : (slotAt log index).value = none := (hmem index hidx_mem).2
  have hEq : evictIfFull log = log := evictIfFull_eq_self log hne1
  have hfl' : (evictIfFull log).freeList = index :: rest := by rw [hEq]; exact hfl
  have hD : (keyOf log index).length = D := hdepth index hidx_lt
  have hlookup1 : hash_lookup (setKeySlot log index (captureBacktrace bt D))
      (captureBacktrace bt D) = none := by
    rw [hash_lookup_setKeySlot_free log index _ _ hidx_free]
    exact hnew
  have hR1 : record_backtrace log bt w1 =
      { slots := (setKeySlot log index (captureBacktrace bt D)).slots.set index
          ⟨captureBacktrace bt D, some w1⟩,
        freeList := rest } := by
    have h := record_eq_notfound log bt w1 index rest hfl'
      (by rw [hEq, hD]; exact hlookup1)
    rw [hEq, hD] at h
    exact h
  have hR1_len : (record_backtrace log bt w1).slots.length = log.slots.length := by
    rw [hR1]
    show ((setKeySlot log index (captureBacktrace bt D)).slots.set index
        ⟨captureBacktrace bt D, some w1⟩).length = log.slots.length
    rw [List.length_set, setKeySlot_length]
  have hR1_at_index : slotAt (record_backtrace log bt w1) index =
      ⟨captureBacktrace bt D, some w1⟩ := by
    rw [hR1, slotAt_mk]
    exact getD_set_self _ index _ default (by rw [setKeySlot_length]; exact hidx_lt)
  have hR1_at_ne : ∀ i, i ≠ index →
      slotAt (record_backtrace log bt w1) i = slotAt log i := by
    intro i hi
    rw [hR1, slotAt_mk, getD_set_ne _ index i _ default (fun e => hi e.symm)]
    exact slotAt_setKeySlot_ne log index i _ (fun e => hi e.symm)
  have hR1_fl : (record_backtrace log bt w1).freeList = rest := by rw [hR1]
  obtain ⟨i2, rest2, hfl2⟩ := List.exists_cons_of_ne_nil hne2
  have hrest : rest = i2 :: rest2 := by rw [← hR1_fl]; exact hfl2
  have hnd' : (index :: rest).Nodup := by rw [← hfl]; exact hnd
  have hnotin : index ∉ rest := (List.nodup_cons.mp hnd').1
  have hi2_mem : i2 ∈ log.freeList := by
    rw [hfl, hrest]
    exact List.mem_cons_of_mem _ (List.mem_cons_self _ _)
  have hi2_lt : i2 < log.slots.length := (hmem i2 hi2_mem).1
  have hi2_free_log : (slotAt log i2).value = none := (hmem i2 hi2_mem).2
  have hi2_ne : i2 ≠ index := by
    intro e
    apply hnotin
    rw [hrest, e]
    exact List.mem_cons_self _ _
  have hi2_free_R1 : (slotAt (record_backtrace log bt w1) i2).value = none := by
    rw [hR1_at_ne i2 hi2_ne]
    exact hi2_free_log
  have hD2 : (keyOf (record_backtrace log bt w1) i2).length = D := by
    show (slotAt (record_backtrace log bt w1) i2).key.length = D
    rw [hR1_at_ne i2 hi2_ne]
    exact hdepth i2 hi2_lt
  have hlookR1 : hash_lookup (record_backtrace log bt w1) (captureBacktrace bt D) =
      some index := by
    apply hash_lookup_intro
    · rw [hR1_len]; exact hidx_lt
    · have hs : (record_backtrace log bt w1).slots.getD index default =
          ⟨captureBacktrace bt D, some w1⟩ := hR1_at_index
      unfold matchAt
      rw [hs]
      exact ⟨rfl, rfl⟩
    · intro m hm
      have hs : (record_backtrace log bt w1).slots.getD m default =
          log.slots.getD m default := hR1_at_ne m (by omega)
      unfold matchAt
      rw [hs]
      exact (hash_lookup_none_iff log _).mp hnew m (by omega)
  have hlook2 : hash_lookup
      (setKeySlot (record_backtrace log bt w1) i2 (captureBacktrace bt D))
      (captureBacktrace bt D) = some index := by
    rw [hash_lookup_setKeySlot_free _ i2 _ _ hi2_free_R1]
    exact hlookR1
  have hEq2 : evictIfFull (record_backtrace log bt w1) = record_backtrace log bt w1 :=
    evictIfFull_eq_self _ hne2
  have hfl2' : (evictIfFull (record_backtrace log bt w1)).freeList = i2 :: rest2 := by
    rw [hEq2]; exact hfl2
  have hR2 : record_backtrace (record_backtrace log bt w1) bt w2 =
      setValueSlot (setKeySlot (record_backtrace log bt w1) i2 (captureBacktrace bt D)) index
        (some (w2 + weightOf
          (setKeySlot (record_backtrace log bt w1) i2 (captureBacktrace bt D)) index)) := by
    have h := record_eq_found (record_backtrace log bt w1) bt w2 i2 rest2 index hfl2'
      (by rw [hEq2, hD2]; exact hlook2)
    rw [hEq2, hD2] at h
    exact h
  have hL2_at_index :
      slotAt (setKeySlot (record_backtrace log bt w1) i2 (captureBacktrace bt D)) index =
        ⟨captureBacktrace bt D, some w1⟩ := by
    rw [slotAt_setKeySlot_ne _ i2 index _ hi2_ne]
    exact hR1_at_index
  have hw_index : weightOf
      (setKeySlot (record_backtrace log bt w1) i2 (captureBacktrace bt D)) index = w1 := by
    unfold weightOf
    rw [hL2_at_index]
    rfl
  have hL2_len : (setKeySlot (record_backtrace log bt w1) i2 (captureBacktrace bt D)).slots.length
      = log.slots.length := by
    rw [setKeySlot_length, hR1_len]
  have hidx_lt2 : index <
      (setKeySlot (record_backtrace log bt w1) i2 (captureBacktrace bt D)).slots.length := by
    rw [hL2_len]; exact hidx_lt
  have hL2_at_i2 :
      slotAt (setKeySlot (record_backtrace log bt w1) i2 (captureBacktrace bt D)) i2 =
        ⟨captureBacktrace bt D, none⟩ := by
    rw [slotAt_setKeySlot_self _ i2 _ (by rw [hR1_len]; exact hi2_lt), hi2_free_R1]
  have hL2_at_other : ∀ i, i ≠ index → i ≠ i2 →
      slotAt (setKeySlot (record_backtrace log bt w1) i2 (captureBacktrace bt D)) i =
        slotAt log i := by
    intro i hi hii2
    rw [slotAt_setKeySlot_ne _ i2 i _ (fun e => hii2 e.symm)]
    exact hR1_at_ne i hi
  rw [hR2]
  have hR2_at_index :
      slotAt (setValueSlot (setKeySlot (record_backtrace log bt w1) i2 (captureBacktrace bt D)) index
          (some (w2 + weightOf (setKeySlot (record_backtrace log bt w1) i2 (captureBacktrace bt D)) index))) index =
        ⟨keyOf (setKeySlot (record_backtrace log bt w1) i2 (captureBacktrace bt D)) index,
         some (w2 + weightOf (setKeySlot (record_backtrace log bt w1) i2 (captureBacktrace bt D)) index)⟩ :=
    slotAt_setValueSlot_self _ index _ hidx_lt2
  have hkeyL2 : keyOf (setKeySlot (record_backtrace log bt w1) i2 (captureBacktrace bt D)) index =
      captureBacktrace bt D := by
    show (slotAt (setKeySlot (record_backtrace log bt w1) i2 (captureBacktrace bt D)) index).key =
      captureBacktrace bt D
    rw [hL2_at_index]
  have hR2_at_ne : ∀ i, i ≠ index →
      slotAt (setValueSlot (setKeySlot (record_backtrace log bt w1) i2 (captureBacktrace bt D)) index
          (some (w2 + weightOf (setKeySlot (record_backtrace log bt w1) i2 (captureBacktrace bt D)) index))) i =
        slotAt (setKeySlot (record_backtrace log bt w1) i2 (captureBacktrace bt D)) i :=
    fun i hi => slotAt_setValueSlot_ne _ index i _ (fun e => hi e.symm)
  have hR2_len :
      (setValueSlot (setKeySlot (record_backtrace log bt w1) i2 (captureBacktrace bt D)) index
          (some (w2 + weightOf (setKeySlot (record_backtrace log bt w1) i2 (captureBacktrace bt D)) index))).slots.length =
        log.slots.length := by
    rw [setValueSlot_length, hL2_len]
  have hlookR2 : hash_lookup
      (setValueSlot (setKeySlot (record_backtrace log bt w1) i2 (captureBacktrace bt D)) index
        (some (w2 + weightOf (setKeySlot (record_backtrace log bt w1) i2 (captureBacktrace bt D)) index)))
      (captureBacktrace bt D) = some index := by
    apply hash_lookup_intro
    · rw [hR2_len]; exact hidx_lt
    · have hs := hR2_at_index
      unfold matchAt
      rw [show (setValueSlot (setKeySlot (record_backtrace log bt w1) i2 (captureBacktrace bt D)) index
          (some (w2 + weightOf (setKeySlot (record_backtrace log bt w1) i2 (captureBacktrace bt D)) index))).slots.getD index default =
          ⟨keyOf (setKeySlot (record_backtrace log bt w1) i2 (captureBacktrace bt D)) index,
           some (w2 + weightOf (setKeySlot (record_backtrace log bt w1) i2 (captureBacktrace bt D)) index)⟩ from hs]
      exact ⟨rfl, hkeyL2⟩
    · intro m hm
      have hmne : m ≠ index := by omega
      have hs1 := hR2_at_ne m hmne
      unfold matchAt
      rw [show (setValueSlot (setKeySlot (record_backtrace log bt w1) i2 (captureBacktrace bt D)) index
          (some (w2 + weightOf (setKeySlot (record_backtrace log bt w1) i2 (captureBacktrace bt D)) index))).slots.getD m default =
          slotAt (setKeySlot (record_backtrace log bt w1) i2 (captureBacktrace bt D)) m from hs1]
      by_cases hmi2 : m = i2
      · subst hmi2
        rw [hL2_at_i2]
        intro hc
        simp at hc
      · rw [hL2_at_other m hmne hmi2]
        exact (hash_lookup_none_iff log _).mp hnew m (by omega)
  constructor
  · unfold getWeight
    rw [hlookR2]
    show some (weightOf _ index) = some (w1 + w2)
    have hwR2 : weightOf
        (setValueSlot (setKeySlot (record_backtrace log bt w1) i2 (captureBacktrace bt D)) index
          (some (w2 + weightOf (setKeySlot (record_backtrace log bt w1) i2 (captureBacktrace bt D)) index)))
        index = w2 + w1 := by
      show (slotAt (setValueSlot (setKeySlot (record_backtrace log bt w1) i2 (captureBacktrace bt D)) index
          (some (w2 + weightOf (setKeySlot (record_backtrace log bt w1) i2 (captureBacktrace bt D)) index)))
        index).value.getD 0 = w2 + w1
      rw [hR2_at_index]
      show (some (w2 + weightOf (setKeySlot (record_backtrace log bt w1) i2 (captureBacktrace bt D)) index)).getD 0 = w2 + w1
      rw [hw_index]
      rfl
    rw [hwR2, Nat.add_comm]
  · apply countP_eq_one_of_unique _ _ index default
    · rw [hR2_len]; exact hidx_lt
    · have hs := hR2_at_index
      rw [show (setValueSlot (setKeySlot (record_backtrace log bt w1) i2 (captureBacktrace bt D)) index
          (some (w2 + weightOf (setKeySlot (record_backtrace log bt w1) i2 (captureBacktrace bt D)) index))).slots.getD index default =
          ⟨keyOf (setKeySlot (record_backtrace log bt w1) i2 (captureBacktrace bt D)) index,
           some (w2 + weightOf (setKeySlot (record_backtrace log bt w1) i2 (captureBacktrace bt D)) index)⟩ from hs]
      simp [hkeyL2]
    · intro j hj hjne
      have hs1 := hR2_at_ne j hjne
      rw [show (setValueSlot (setKeySlot (record_backtrace log bt w1) i2 (captureBacktrace bt D)) index
          (some (w2 + weightOf (setKeySlot (record_backtrace log bt w1) i2 (captureBacktrace bt D)) index))).slots.getD j default =
          slotAt (setKeySlot (record_backtrace log bt w1) i2 (captureBacktrace bt D)) j from hs1]
      by_cases hji2 : j = i2
      · subst hji2
        rw [hL2_at_i2]
        simp
      · rw [hL2_at_other j hjne hji2]
        have hj_lt : j < log.slots.length := by
          rw [hR2_len] at hj
          exact hj
        have hnm := (hash_lookup_none_iff log _).mp hnew j hj_lt
        cases hv : (slotAt log j).value with
        | none =>
          have : (slotAt log j).value.isSome = false := by rw [hv]; rfl
          simp [this]
        | some v =>
          have hvs : (slotAt log j).value.isSome = true := by rw [hv]; rfl
          have hkne : (slotAt log j).key ≠ captureBacktrace bt D := by
            intro hk
            exact hnm ⟨hvs, hk⟩
          simp [hvs, hkne]

/-- C6 witness: recording the same stack twice with weights 5 and 3 on a
fresh capacity-3 store of depth 2 leaves a single entry of weight 8. -/
theorem C6_witness :
    getWeight (record_backtrace (record_backtrace (make_log 3 2) [Frame.fn 1] 5)
        [Frame.fn 1] 3) (captureBacktrace [Frame.fn 1] 2) = some (5 + 3) ∧
    (record_backtrace (record_backtrace (make_log 3 2) [Frame.fn 1] 5)
        [Frame.fn 1] 3).slots.countP
      (fun s => s.value.isSome && decide (s.key = captureBacktrace [Frame.fn 1] 2)) = 1 :=
  C6_identical_snapshots_accumulate (make_log 3 2) [Frame.fn 1] 5 3 2
    (by decide) (by decide) (by decide) (by decide) (by decide)

/-! ### CPU sampler run lemmas -/

theorem capture_ne_gc (bt : List Frame) (hgc : isGCTick bt = false) (L : Nat) :
    captureBacktrace bt L ≠ [Frame.gc] := by
  intro he
  cases L with
  | zero =>
    simp [captureBacktrace] at he
  | succ n =>
    cases bt with
    | nil =>
      rw [show captureBacktrace [] (n + 1) = List.replicate (n + 1) Frame.nil from rfl,
          List.replicate_succ] at he
      have h1 : Frame.nil = Frame.gc := (List.cons.injEq _ _ _ _ ▸ he).1
      simp at h1
    | cons f rest =>
      have hcons : captureBacktrace (f :: rest) (n + 1) = f :: captureBacktrace rest n := by
        show (f :: rest).take (n + 1) ++ List.replicate ((n + 1) - (rest.length + 1)) Frame.nil
          = f :: (rest.take n ++ List.replicate (n - rest.length) Frame.nil)
        rw [List.take_succ_cons]
        simp [Nat.succ_sub_succ]
      rw [hcons] at he
      have hf : f = Frame.gc := (List.cons.injEq _ _ _ _ ▸ he).1
      subst hf
      simp [isGCTick] at hgc

theorem sigprof_gc (bt : List Frame) (st : CpuState) (log : LogStore)
    (hlog : st.cpu_log = some log) (hgc : isGCTick bt = true) :
    sigprof_handler_1 bt st =
      { st with cpu_gc_count := st.cpu_gc_count + st.current_sample_interval } := by
  cases bt with
  | nil => simp [isGCTick] at hgc
  | cons f rest =>
    cases f with
    | gc => simp [sigprof_handler_1, hlog]
    | nil => simp [isGCTick] at hgc
    | fn k => simp [isGCTick] at hgc

theorem sigprof_rec (bt : List Frame) (st : CpuState) (log : LogStore)
    (hlog : st.cpu_log = some log) (hgc : isGCTick bt = false) :
    sigprof_handler_1 bt st =
      { st with cpu_log := some (record_backtrace log bt st.current_sample_interval) } := by
  cases bt with
  | nil => simp [sigprof_handler_1, hlog]
  | cons f rest =>
    cases f with
    | gc => simp [isGCTick] at hgc
    | nil => simp [sigprof_handler_1, hlog]
    | fn k => simp [sigprof_handler_1, hlog]

theorem record_no_evict_nogckey (log : LogStore) (bt : List Frame) (w : Nat)
    (hwf : StoreWF log) (hne : log.freeList ≠ []) (hkey : NoGcKey log)
    (hgc : isGCTick bt = false) :
    NoGcKey (record_backtrace log bt w) := by
  obtain ⟨_, _, hlen, hkeys⟩ := record_no_evict_main log bt w hwf hne
  intro i hi hocc
  rw [hlen] at hi
  rcases hkeys i hi hocc with ⟨hk, hoccold⟩ | hk
  · rw [hk]
    exact hkey i hi hoccold
  · rw [hk]
    exact capture_ne_gc bt hgc _

theorem lookup_gc_none (log : LogStore) (hkey : NoGcKey log) :
    hash_lookup log [Frame.gc] = none := by
  rw [hash_lookup_none_iff]
  intro k hk hm
  exact hkey k hk hm.1 hm.2

theorem Fputhash_total (log : LogStore) (k : List Frame) (v : Nat)
    (hwf : StoreWF log) (hnone : hash_lookup log k = none) :
    totalWeight (Fputhash k v log) = totalWeight log + v := by
  unfold Fputhash
  rw [hnone]
  cases hfree : log.freeList with
  | nil =>
    unfold hash_put
    rw [hfree]
    show totalWeight { slots := log.slots ++ [⟨k, some v⟩], freeList := [] } =
      totalWeight log + v
    unfold totalWeight
    rw [List.map_append, List.sum_append]
    simp
  | cons i rest =>
    unfold hash_put
    rw [hfree]
    show totalWeight { slots := log.slots.set i ⟨k, some v⟩, freeList := rest } =
      totalWeight log + v
    have hi : i < log.slots.length :=
      (hwf.2.1 i (by rw [hfree]; exact List.mem_cons_self _ _)).1
    have hfree_slot : (slotAt log i).value = none :=
      (hwf.2.1 i (by rw [hfree]; exact List.mem_cons_self _ _)).2
    exact totalWeight_set_insert log i k v rest hi hfree_slot

theorem totalWeight_make_log (C D : Nat) : totalWeight (make_log C D) = 0 := by
  unfold totalWeight make_log
  simp [List.map_replicate]

theorem occupiedCount_make_log (C D : Nat) : occupiedCount (make_log C D) = 0 := by
  unfold occupiedCount make_log
  apply List.countP_eq_zero.mpr
  intro a ha
  have := List.eq_of_mem_replicate ha
  rw [this]
  simp

theorem nogckey_make_log (C D : Nat) : NoGcKey (make_log C D) := by
  intro i hi hocc
  rw [slotAt_make_log_value] at hocc
  simp at hocc

theorem storewf_make_log (C D : Nat) : StoreWF (make_log C D) := by
  refine ⟨List.nodup_range _, ?_, ?_⟩
  · intro i hi
    have hir : i ∈ List.range C := hi
    exact ⟨by rw [make_log_length]; exact List.mem_range.mp hir,
      slotAt_make_log_value C D i⟩
  · intro i hi _
    show i ∈ List.range C
    rw [make_log_length] at hi
    exact List.mem_range.mpr hi

theorem runTicks_spec (ticks : List (List Frame)) :
    ∀ (st : CpuState) (log : LogStore), st.cpu_log = some log → StoreWF log →
      NoGcKey log → noEvictTicks st ticks = true →
      ∃ log', (runTicks st ticks).cpu_log = some log' ∧ StoreWF log' ∧ NoGcKey log' ∧
        totalWeight log' = totalWeight log +
          st.current_sample_interval * (ticks.countP (fun bt => !isGCTick bt)) ∧
        (runTicks st ticks).current_sample_interval = st.current_sample_interval ∧
        (runTicks st ticks).profiler_cpu_running = st.profiler_cpu_running := by
  induction ticks with
  | nil =>
    intro st log hlog hwf hkey _
    exact ⟨log, hlog, hwf, hkey, by simp, rfl, rfl⟩
  | cons bt rest ih =>
    intro st log hlog hwf hkey hnoev
    unfold noEvictTicks at hnoev
    rw [Bool.and_eq_true] at hnoev
    obtain ⟨hok, hrest⟩ := hnoev
    have hrun : runTicks st (bt :: rest) = runTicks (sigprof_handler_1 bt st) rest := rfl
    by_cases hgc : isGCTick bt = true
    · have hstep := sigprof_gc bt st log hlog hgc
      have hlog' : (sigprof_handler_1 bt st).cpu_log = some log := by
        rw [hstep]; exact hlog
      obtain ⟨log', h1, h2, h3, h4, h5, h6⟩ :=
        ih (sigprof_handler_1 bt st) log hlog' hwf hkey hrest
      have hint : (sigprof_handler_1 bt st).current_sample_interval =
          st.current_sample_interval := by rw [hstep]
      have hruning : (sigprof_handler_1 bt st).profiler_cpu_running =
          st.profiler_cpu_running := by rw [hstep]
      have hcnt : (bt :: rest).countP (fun b => !isGCTick b) =
          rest.countP (fun b => !isGCTick b) := by
        simp [List.countP_cons, hgc]
      rw [hrun]
      refine ⟨log', h1, h2, h3, ?_, ?_, ?_⟩
      · rw [hcnt, h4, hint]
      · rw [h5, hint]
      · rw [h6, hruning]
    · have hgc' : isGCTick bt = false := Bool.eq_false_iff.mpr hgc
      have hstep := sigprof_rec bt st log hlog hgc'
      have hne : log.freeList ≠ [] := by
        rw [if_neg hgc] at hok
        simp only [hlog] at hok
        intro hnil
        rw [hnil] at hok
        simp at hok
      have hmain := record_no_evict_main log bt st.current_sample_interval hwf hne
      have hkey' : NoGcKey (record_backtrace log bt st.current_sample_interval) :=
        record_no_evict_nogckey log bt _ hwf hne hkey hgc'
      have hlog' : (sigprof_handler_1 bt st).cpu_log =
          some (record_backtrace log bt st.current_sample_interval) := by
        rw [hstep]
      obtain ⟨log', h1, h2, h3, h4, h5, h6⟩ :=
        ih (sigprof_handler_1 bt st) (record_backtrace log bt st.current_sample_interval)
          hlog' hmain.1 hkey' hrest
      have hint : (sigprof_handler_1 bt st).current_sample_interval =
          st.current_sample_interval := by rw [hstep]
      have hruning : (sigprof_handler_1 bt st).profiler_cpu_running =
          st.profiler_cpu_running := by rw [hstep]
      have hcnt : (bt :: rest).countP (fun b => !isGCTick b) =
          rest.countP (fun b => !isGCTick b) + 1 := by
        simp [List.countP_cons, hgc']
      rw [hrun]
      refine ⟨log', h1, h2, h3, ?_, ?_, ?_⟩
      · rw [hcnt, h4, hint, hmain.2.1, Nat.mul_succ]
        omega
      · rw [h5, hint]
      · rw [h6, hruning]

/-- C7: starting the CPU sampler fresh (present store, zero GC accumulator)
and running any sequence of timer ticks during which the store never fills
(no eviction), reading the cpu log returns a log whose total weight equals
the sample interval times the number of non-GC ticks plus the GC
accumulator's value at read time; afterwards the GC accumulator is 0 and a
fresh empty store is installed because the sampler is still running, while on
any non-running state the store is left absent. -/
theorem C7_read_cpu_log_total (C D Δ : Nat) (ticks : List (List Frame))
    (hnoev : noEvictTicks (cpuStartState C D Δ) ticks = true) :
    (∃ outLog,
      (Fprofiler_cpu_log C D (runTicks (cpuStartState C D Δ) ticks)).1 = some outLog ∧
      totalWeight outLog =
        Δ * (ticks.countP (fun bt => !isGCTick bt)) +
          (runTicks (cpuStartState C D Δ) ticks).cpu_gc_count) ∧
    (Fprofiler_cpu_log C D (runTicks (cpuStartState C D Δ) ticks)).2.cpu_gc_count = 0 ∧
    (Fprofiler_cpu_log C D (runTicks (cpuStartState C D Δ) ticks)).2.cpu_log =
      some (make_log C D) ∧
    occupiedCount (make_log C D) = 0 ∧
    (∀ st : CpuState, st.profiler_cpu_running = false →
      (Fprofiler_cpu_log C D st).2.cpu_log = none) := by
  obtain ⟨log', h1, hwf', hkey', h4, h5, h6⟩ :=
    runTicks_spec ticks (cpuStartState C D Δ) (make_log C D) rfl
      (storewf_make_log C D) (nogckey_make_log C D) hnoev
  refine ⟨⟨Fputhash [Frame.gc] (runTicks (cpuStartState C D Δ) ticks).cpu_gc_count log',
      ?_, ?_⟩, rfl, ?_, occupiedCount_make_log C D, ?_⟩
  · show ((runTicks (cpuStartState C D Δ) ticks).cpu_log.map
      (Fputhash [Frame.gc] (runTicks (cpuStartState C D Δ) ticks).cpu_gc_count)) = _
    rw [h1]
    rfl
  · rw [Fputhash_total log' [Frame.gc] _ hwf' (lookup_gc_none log' hkey')]
    rw [h4, totalWeight_make_log]
    have hint : (cpuStartState C D Δ).current_sample_interval = Δ := rfl
    rw [hint]
    omega
  · show (if (runTicks (cpuStartState C D Δ) ticks).profiler_cpu_running
      then some (make_log C D) else none) = some (make_log C D)
    rw [h6]
    rfl
  · intro st hst
    show (if st.profiler_cpu_running then some (make_log C D) else none) = none
    rw [hst]
    simp

/-- C7 witness: capacity 2, depth 1, interval 3, one non-GC tick and one GC
tick; the returned log's total weight is 3 * 1 + 3 = 6. -/
theorem C7_witness :
    (∃ outLog,
      (Fprofiler_cpu_log 2 1 (runTicks (cpuStartState 2 1 3)
        [[Frame.fn 0], [Frame.gc]])).1 = some outLog ∧
      totalWeight outLog =
        3 * (([[Frame.fn 0], [Frame.gc]] : List (List Frame)).countP
            (fun bt => !isGCTick bt)) +
          (runTicks (cpuStartState 2 1 3) [[Frame.fn 0], [Frame.gc]]).cpu_gc_count) ∧
    (Fprofiler_cpu_log 2 1 (runTicks (cpuStartState 2 1 3)
        [[Frame.fn 0], [Frame.gc]])).2.cpu_gc_count = 0 ∧
    (Fprofiler_cpu_log 2 1 (runTicks (cpuStartState 2 1 3)
        [[Frame.fn 0], [Frame.gc]])).2.cpu_log = some (make_log 2 1) ∧
    occupiedCount (make_log 2 1) = 0 ∧
    (∀ st : CpuState, st.profiler_cpu_running = false →
      (Fprofiler_cpu_log 2 1 st).2.cpu_log = none) :=
  C7_read_cpu_log_total 2 1 3 [[Frame.fn 0], [Frame.gc]] (by decide)
